import Mathlib

/-!
Resume upload front end (`frontend/front_end/app.js`).

A shallow embedding of the click handler registered on `submitBtn`, together
with the parts of the JavaScript run time it relies on:

* `String.prototype.trim`, truthiness, property reads, `ToString`, `ToNumber`,
  `Number.prototype.toFixed` and `Number::toString`, over values produced by
  `JSON.parse`;
* the effects of the handler (`alert`, `fetch`, `console.error`, writes to the
  five display elements), recorded in order as a list of `Effect`s;
* the display, obtained by replaying the effects on the prior display.

Numbers are binary64 values `mant * 2 ^ exp`; every arithmetic operation and
every reading of a decimal literal rounds to nearest, ties to even. A reading
of `performance.now()` is a Number from 0 up to `2 ^ 53` milliseconds.
-/

namespace Portal

set_option maxRecDepth 4000

/-! ## Binary64 numbers -/

/-- A finite Number: the binary64 value `mant * 2 ^ exp`. Positive and negative
zero are not told apart: they print alike, both are falsy, and the handler
never divides by a Number. -/
structure Double where
  mant : Int
  exp : Int
deriving DecidableEq, Repr

/-- A JavaScript Number: `NaN`, an infinity, or a finite binary64 value. -/
inductive JsNum where
  | nan
  | posInf
  | negInf
  | fin (d : Double)
deriving DecidableEq, Repr

namespace Double

/-- The rational value of a finite Number. -/
def toRat (d : Double) : ℚ := (d.mant : ℚ) * (2 : ℚ) ^ d.exp

/-- Number of binary digits of `n`, by halving at most `fuel` times. -/
def bitLength : Nat → Nat → Nat
  | 0, _ => 0
  | fuel + 1, n => if n = 0 then 0 else bitLength fuel (n / 2) + 1

/-- Number of binary digits of `n`. -/
def bits (n : Nat) : Nat := bitLength n n

/-- The integer `k` with `2 ^ k ≤ p / q < 2 ^ (k + 1)`, for positive `p` and `q`. -/
def floorLog2 (p q : Nat) : Int :=
  let a : Int := (bits p : Int) - (bits q : Int)
  let reached : Bool :=
    if 0 ≤ a then decide (q * 2 ^ a.toNat ≤ p) else decide (q ≤ p * 2 ^ (-a).toNat)
  if reached then a else a - 1

/-- The integer nearest to `num / den`, the even one on a tie. -/
def roundHalfEven (num den : Nat) : Nat :=
  let f := num / den
  let r := num % den
  if 2 * r < den then f
  else if den < 2 * r then f + 1
  else if f % 2 = 0 then f else f + 1

/-- The binary64 value nearest to `± p / q` (round to nearest, ties to even):
a significand of at most 53 bits on an exponent of at least `-1074`, and an
infinity from `2 ^ 1024` on. -/
def ofRatio (neg : Bool) (p q : Nat) : JsNum :=
  if p = 0 then .fin ⟨0, 0⟩
  else
    let e : Int := max (floorLog2 p q - 52) (-1074)
    let m : Nat :=
      if 0 ≤ e then roundHalfEven p (q * 2 ^ e.toNat)
      else roundHalfEven (p * 2 ^ (-e).toNat) q
    if 972 ≤ e ∨ (e = 971 ∧ 2 ^ 53 ≤ m) then (if neg then .negInf else .posInf)
    else .fin ⟨if neg then -(m : Int) else (m : Int), e⟩

/-- The binary64 value nearest to the decimal `± m * 10 ^ e`, as `JSON.parse`
and `StringToNumber` read a decimal literal. -/
def ofDecimal (neg : Bool) (m : Nat) (e : Int) : JsNum :=
  if 0 ≤ e then ofRatio neg (m * 10 ^ e.toNat) 1 else ofRatio neg m (10 ^ (-e).toNat)

/-- The binary64 result of `d * num / den` for one rounding, as in the
product `d * 100` and the quotient `d / 1000`. -/
def scale (d : Double) (num den : Nat) : JsNum :=
  if 0 ≤ d.exp then ofRatio (decide (d.mant < 0)) (d.mant.natAbs * num * 2 ^ d.exp.toNat) den
  else ofRatio (decide (d.mant < 0)) (d.mant.natAbs * num) (den * 2 ^ (-d.exp).toNat)

/-- The binary64 product `d * 100`. -/
def mul100 (d : Double) : JsNum := scale d 100 1

/-- The binary64 quotient `d / 1000`. -/
def div1000 (d : Double) : JsNum := scale d 1 1000

/-- The binary64 difference `a - b`. -/
def sub (a b : Double) : JsNum :=
  let e := min a.exp b.exp
  let diff : Int := a.mant * 2 ^ (a.exp - e).toNat - b.mant * 2 ^ (b.exp - e).toNat
  if 0 ≤ e then ofRatio (decide (diff < 0)) (diff.natAbs * 2 ^ e.toNat) 1
  else ofRatio (decide (diff < 0)) diff.natAbs (2 ^ (-e).toNat)

/-- Whether `x` is the finite Number `d`. -/
def sameValue (x : JsNum) (d : Double) : Bool :=
  match x with
  | .fin c =>
    let e := min c.exp d.exp
    decide (c.mant * 2 ^ (c.exp - e).toNat = d.mant * 2 ^ (d.exp - e).toNat)
  | _ => false

/-- Whether `10 ^ 21 ≤ |d|`. -/
def geTenPow21 (d : Double) : Bool :=
  if 0 ≤ d.exp then decide (10 ^ 21 ≤ d.mant.natAbs * 2 ^ d.exp.toNat)
  else decide (10 ^ 21 * 2 ^ (-d.exp).toNat ≤ d.mant.natAbs)

/-- The integer `n` for which `n / 100` is closest to `|d|`, the larger one on a
tie (step 11.a of `Number.prototype.toFixed` with two fraction digits). -/
def roundCents (d : Double) : Nat :=
  let a := d.mant.natAbs
  if 0 ≤ d.exp then a * 2 ^ d.exp.toNat * 100
  else (2 * (100 * a) + 2 ^ (-d.exp).toNat) / (2 * 2 ^ (-d.exp).toNat)

/-- The least `j` from `start` on with `q ≤ p * 10 ^ j`, searching at most
`fuel` values. -/
def shiftCount : Nat → Nat → Nat → Nat → Nat
  | 0, _, _, j => j
  | fuel + 1, p, q, j => if q ≤ p * 10 ^ j then j else shiftCount fuel p q (j + 1)

/-- The integer `n` with `10 ^ (n - 1) ≤ p / q < 10 ^ n`, for positive `p`, `q`. -/
def decimalExponent (p q : Nat) : Int :=
  if q ≤ p then ((Nat.toDigits 10 (p / q)).length : Int)
  else 1 - (shiftCount q p q 1 : Int)

/-- Step 5 of `Number::toString` for the positive Number `d = p / q` with
`10 ^ (n - 1) ≤ d < 10 ^ n`: the least number `k` of digits, from `k` on, for
which some `s * 10 ^ (n - k)` reads back as `d`, with the `s` closest to `d`
(the even one on a tie). The result is `s` and the position `n` of the point,
one more when `s` was rounded up to a power of ten. -/
def shortestDigits : Nat → Nat → Double → Nat → Nat → Int → Nat × Int
  | 0, _, _, _, _, n => (0, n)
  | fuel + 1, k, d, p, q, n =>
    let ex : Int := n - (k : Int)
    let num := if 0 ≤ ex then p else p * 10 ^ (-ex).toNat
    let den := if 0 ≤ ex then q * 10 ^ ex.toNat else q
    let lo := num / den
    let hi := lo + 1
    let vlo : Bool := decide (10 ^ (k - 1) ≤ lo) && sameValue (ofDecimal false lo ex) d
    let vhi : Bool := sameValue (ofDecimal false hi ex) d
    if vlo || vhi || decide (fuel = 0) then
      let r := num % den
      let s :=
        if vlo && vhi then
          (if 2 * r < den then lo else if den < 2 * r then hi
           else if lo % 2 = 0 then lo else hi)
        else if vhi then hi else lo
      if s = 10 ^ k then (10 ^ (k - 1), n + 1) else (s, n)
    else shortestDigits fuel (k + 1) d p q n

/-- The digits without their trailing zeros, at least one digit being kept. -/
def dropTrailingZeros (ds : List Char) : List Char :=
  match (ds.reverse.dropWhile (fun c => c = '0')).reverse with
  | [] => ['0']
  | r => r

/-- Steps 6 to 10 of `Number::toString`: the digits of `s` laid out around the
point at position `n`, in exponent notation outside `-6 < n ≤ 21`. -/
def layoutDigits (s : Nat) (n : Int) : String :=
  let ds := dropTrailingZeros (Nat.toDigits 10 s)
  let k : Int := ds.length
  if k ≤ n ∧ n ≤ 21 then
    String.mk (ds ++ List.replicate (n - k).toNat '0')
  else if 0 < n ∧ n ≤ 21 then
    String.mk (ds.take n.toNat ++ '.' :: ds.drop n.toNat)
  else if -6 < n ∧ n ≤ 0 then
    String.mk ('0' :: '.' :: (List.replicate (-n).toNat '0' ++ ds))
  else
    let sign := if n - 1 < 0 then '-' else '+'
    let ex := Nat.toDigits 10 (n - 1).natAbs
    if ds.length = 1 then String.mk (ds ++ 'e' :: sign :: ex)
    else String.mk (ds.take 1 ++ '.' :: (ds.drop 1 ++ 'e' :: sign :: ex))

/-- `Number::toString` (radix 10) of a positive finite Number. -/
def posToString (d : Double) : String :=
  let p := if 0 ≤ d.exp then d.mant.natAbs * 2 ^ d.exp.toNat else d.mant.natAbs
  let q := if 0 ≤ d.exp then 1 else 2 ^ (-d.exp).toNat
  let sn := shortestDigits 17 1 d p q (decimalExponent p q)
  layoutDigits sn.1 sn.2

/-- `Number::toString` (radix 10) of a finite Number. -/
def toStr (d : Double) : String :=
  if d.mant = 0 then "0"
  else if d.mant < 0 then "-" ++ posToString ⟨(d.mant.natAbs : Int), d.exp⟩
  else posToString d

/-- Steps 11.b and 11.c of `Number.prototype.toFixed` for two fraction digits:
the digits of `n`, left-padded with zeros to three characters, with a point
before the last two. -/
def fixedDigits (n : Nat) : String :=
  let m := if n = 0 then ['0'] else Nat.toDigits 10 n
  let m := if m.length ≤ 2 then List.replicate (2 + 1 - m.length) '0' ++ m else m
  let k := m.length
  String.mk (m.take (k - 2) ++ '.' :: m.drop (k - 2))

/-- `Number.prototype.toFixed(2)` of a finite Number. -/
def toFixed2 (d : Double) : String :=
  let s := if d.mant < 0 then "-" else ""
  let x : Double := ⟨(d.mant.natAbs : Int), d.exp⟩
  if x.geTenPow21 then s ++ x.toStr
  else s ++ fixedDigits x.roundCents

/-- Whether `d` can be a reading of `performance.now()`: milliseconds since the
time origin, not negative and below `2 ^ 53`. -/
def isClockReading (d : Double) : Bool :=
  decide (0 ≤ d.mant) &&
    (if 0 ≤ d.exp then decide (d.mant.natAbs * 2 ^ d.exp.toNat < 2 ^ 53)
     else decide (d.mant.natAbs < 2 ^ 53 * 2 ^ (-d.exp).toNat))

end Double

namespace JsNum

/-- The rational value of a finite Number, and zero otherwise. -/
def toRat : JsNum → ℚ
  | fin d => d.toRat
  | _ => 0

/-- The product `x * 100`. -/
def mul100 : JsNum → JsNum
  | nan => nan
  | posInf => posInf
  | negInf => negInf
  | fin d => d.mul100

/-- The quotient `x / 1000`. -/
def div1000 : JsNum → JsNum
  | nan => nan
  | posInf => posInf
  | negInf => negInf
  | fin d => d.div1000

/-- Unary minus. -/
def neg : JsNum → JsNum
  | nan => nan
  | posInf => negInf
  | negInf => posInf
  | fin d => fin ⟨-d.mant, d.exp⟩

/-- `Number::toString` (radix 10). -/
def toStr : JsNum → String
  | nan => "NaN"
  | posInf => "Infinity"
  | negInf => "-Infinity"
  | fin d => d.toStr

/-- `Number.prototype.toFixed(2)`; a non-finite Number is printed by
`Number::toString`. -/
def toFixed2 : JsNum → String
  | fin d => d.toFixed2
  | x => x.toStr

end JsNum

/-! ## Strings -/

/-- The code points removed by `String.prototype.trim`: the `WhiteSpace` and
`LineTerminator` productions of ECMAScript. -/
def isTrimChar (c : Char) : Bool :=
  let n := c.toNat
  n = 0x09 || n = 0x0A || n = 0x0B || n = 0x0C || n = 0x0D || n = 0x20 ||
  n = 0xA0 || n = 0x1680 || (0x2000 ≤ n && n ≤ 0x200A) || n = 0x2028 ||
  n = 0x2029 || n = 0x202F || n = 0x205F || n = 0x3000 || n = 0xFEFF

/-- Trimming of a list of code points at both ends. -/
def trimChars (cs : List Char) : List Char :=
  ((cs.dropWhile isTrimChar).reverse.dropWhile isTrimChar).reverse

/-- `String.prototype.trim`. -/
def jsTrim (s : String) : String := String.mk (trimChars s.data)

/-- Value of a list of digits in the given radix, most significant first; a
letter counts as a digit from ten on. -/
def digitsValue (radix : Nat) (ds : List Char) : Nat :=
  ds.foldl (fun n c =>
    radix * n + (if c.isDigit then c.toNat - 48
                 else if c.isLower then c.toNat - 87 else c.toNat - 55)) 0

/-- Whether `c` is a digit of the given radix (2, 8, 10 or 16). -/
def isRadixDigit (radix : Nat) (c : Char) : Bool :=
  if radix = 16 then
    c.isDigit || (97 ≤ c.toNat && c.toNat ≤ 102) || (65 ≤ c.toNat && c.toNat ≤ 70)
  else 48 ≤ c.toNat && c.toNat < 48 + radix

/-- The `ExponentPart` of a numeric string after its `e`: an optional sign and
at least one digit, up to the end. -/
def parseExponent (cs : List Char) : Option Int :=
  let body (ds : List Char) : Option Nat :=
    if ds ≠ [] ∧ ds.all Char.isDigit then some (digitsValue 10 ds) else none
  match cs with
  | '+' :: ds => (body ds).map Int.ofNat
  | '-' :: ds => (body ds).map (fun n => -Int.ofNat n)
  | ds => (body ds).map Int.ofNat

/-- A `StrUnsignedDecimalLiteral` taking up all of `cs`. -/
def parseUnsignedDecimal (cs : List Char) : Option JsNum :=
  if cs = "Infinity".data then some JsNum.posInf
  else
    let ip := cs.takeWhile Char.isDigit
    match cs.dropWhile Char.isDigit with
    | [] => if ip = [] then none else some (Double.ofDecimal false (digitsValue 10 ip) 0)
    | '.' :: r =>
      let fp := r.takeWhile Char.isDigit
      if ip = [] ∧ fp = [] then none
      else
        match r.dropWhile Char.isDigit with
        | [] => some (Double.ofDecimal false (digitsValue 10 (ip ++ fp)) (-(fp.length : Int)))
        | c :: ex =>
          if c = 'e' ∨ c = 'E' then
            (parseExponent ex).map
              (fun e =>
                Double.ofDecimal false (digitsValue 10 (ip ++ fp)) (e - (fp.length : Int)))
          else none
    | c :: ex =>
      if (c = 'e' ∨ c = 'E') ∧ ip ≠ [] then
        (parseExponent ex).map (fun e => Double.ofDecimal false (digitsValue 10 ip) e)
      else none

/-- A `NonDecimalIntegerLiteral` body: at least one digit of the radix. -/
def parseRadix (radix : Nat) (ds : List Char) : Option JsNum :=
  if ds ≠ [] ∧ ds.all (isRadixDigit radix) then
    some (Double.ofRatio false (digitsValue radix ds) 1)
  else none

/-- `StringToNumber`: the number denoted by a string, `NaN` when the string is
not a `StringNumericLiteral`. -/
def stringToNumber (s : String) : JsNum :=
  let cs := trimChars s.data
  let r : Option JsNum :=
    match cs with
    | [] => some (.fin ⟨0, 0⟩)
    | '+' :: r => parseUnsignedDecimal r
    | '-' :: r => (parseUnsignedDecimal r).map JsNum.neg
    | '0' :: c :: r =>
      if c = 'x' ∨ c = 'X' then parseRadix 16 r
      else if c = 'o' ∨ c = 'O' then parseRadix 8 r
      else if c = 'b' ∨ c = 'B' then parseRadix 2 r
      else parseUnsignedDecimal cs
    | _ => parseUnsignedDecimal cs
  r.getD .nan

/-! ## Values read from the response body -/

/-- A JavaScript value as `JSON.parse` builds it, plus `undefined`, which a
read of a missing property yields. An object is the list of its own
properties. -/
inductive JsVal where
  | undefined
  | null
  | bool (b : Bool)
  | num (x : JsNum)
  | str (s : String)
  | arr (items : List JsVal)
  | obj (props : List (String × JsVal))
deriving Repr

/-- A thrown value or rejection reason: either what a promise of the
environment (`fetch`, `response.json()`) was rejected with, or a `TypeError`
raised while evaluating the handler. -/
inductive JsError where
  | rejection (reason : String)
  | typeError
deriving DecidableEq, Repr

namespace JsVal

/-- `ToBoolean`. -/
def truthy : JsVal → Bool
  | undefined => false
  | null => false
  | bool b => b
  | num .nan => false
  | num (.fin d) => decide (d.mant ≠ 0)
  | num _ => true
  | str s => decide (s ≠ "")
  | arr _ => true
  | obj _ => true

/-- The read `v.key` for a key that no built-in prototype defines: a
`TypeError` on `undefined` and `null`, the own property of an object, and
`undefined` otherwise. -/
def getProp (v : JsVal) (key : String) : Except JsError JsVal :=
  match v with
  | undefined => .error .typeError
  | null => .error .typeError
  | obj props => .ok ((props.lookup key).getD undefined)
  | _ => .ok undefined

mutual
/-- `ToString`. An array is joined with commas; an object without an own
`toString` property prints as `[object Object]`, and one with such a property
(never callable in parsed JSON) cannot be converted. -/
def toStr : JsVal → Except JsError String
  | undefined => .ok "undefined"
  | null => .ok "null"
  | bool b => .ok (if b then "true" else "false")
  | num x => .ok x.toStr
  | str s => .ok s
  | arr items => joinItems items
  | obj props =>
    if (props.map Prod.fst).contains "toString" then .error .typeError
    else .ok "[object Object]"
/-- `Array.prototype.join` with the default separator: `undefined` and `null`
elements print as the empty string. -/
def joinItems : List JsVal → Except JsError String
  | [] => .ok ""
  | [x] =>
    match x with
    | undefined => .ok ""
    | null => .ok ""
    | y => toStr y
  | x :: y :: rest =>
    match (match x with
           | undefined => Except.ok ""
           | null => Except.ok ""
           | z => toStr z) with
    | .error e => .error e
    | .ok sx =>
      match joinItems (y :: rest) with
      | .error e => .error e
      | .ok sr => .ok (sx ++ "," ++ sr)
end

/-- `ToNumber`. An array or object is first converted to a string. -/
def toNumber : JsVal → Except JsError JsNum
  | undefined => .ok .nan
  | null => .ok (.fin ⟨0, 0⟩)
  | bool b => .ok (.fin ⟨if b then 1 else 0, 0⟩)
  | num x => .ok x
  | str s => .ok (stringToNumber s)
  | v => (toStr v).map stringToNumber

/-- Conversion of a value assigned to `innerText`: `null` becomes the empty
string, anything else goes through `ToString`. -/
def toInnerText : JsVal → Except JsError String
  | null => .ok ""
  | v => toStr v

/-- The elements visited by `v.forEach(...)`: those of an array, in order;
any other value has no callable `forEach`. -/
def forEachItems : JsVal → Except JsError (List JsVal)
  | arr items => .ok items
  | _ => .error .typeError

end JsVal

/-! ## Inputs, environment and effects -/

/-- A selected file: its name and its bytes. -/
structure File where
  name : String
  bytes : List Nat
deriving DecidableEq, Repr

/-- The value of a `FormData` entry. -/
inductive FormValue where
  | text (s : String)
  | file (f : File)
deriving DecidableEq, Repr

/-- A `FormData` object: its entries in the order they were appended. -/
abbrev FormData := List (String × FormValue)

/-- `FormData.prototype.append`. -/
def FormData.append (fd : FormData) (name : String) (value : FormValue) : FormData :=
  fd ++ [(name, value)]

/-- A request handed to `fetch`. -/
structure Request where
  method : String
  url : String
  body : FormData
deriving DecidableEq, Repr

/-- A response that `fetch` resolved with: its HTTP status and what
`response.json()` settles to. -/
structure Response where
  status : Nat
  json : Except JsError JsVal

/-- A reading of `performance.now()`: the milliseconds since the time origin
of the page, a Number that is not negative and stays below `2 ^ 53`. -/
structure Timestamp where
  ms : Double
  inRange : ms.isClockReading = true

/-- What the surroundings supply to one run of the handler: the two readings
of `performance.now()` (the second is taken once the body has been parsed) and
the outcome of `fetch`. -/
structure Env where
  startTime : Timestamp
  arrivalTime : Timestamp
  fetch : Except JsError Response

/-- The display elements whose text the handler assigns. -/
inductive Element where
  | processingTime
  | topResumeName
  | topResumeScore
  | topResumeMatches
deriving DecidableEq, Repr

/-- An observable action of the handler. -/
inductive Effect where
  | alert (message : String)
  | fetch (request : Request)
  | consoleError (error : JsError)
  | setText (element : Element) (text : String)
  | clearAllResults
  | appendAllResults (item : String)
deriving DecidableEq, Repr

/-- A computation that performs effects and then returns or throws. -/
structure Eff (α : Type) where
  effects : List Effect
  result : Except JsError α

namespace Eff

/-- Returns without any effect. -/
def ret {α : Type} (a : α) : Eff α := ⟨[], .ok a⟩

/-- Sequencing: the effects of the first computation are kept when it throws. -/
def andThen {α β : Type} (m : Eff α) (f : α → Eff β) : Eff β :=
  match m.result with
  | .error e => ⟨m.effects, .error e⟩
  | .ok a => ⟨m.effects ++ (f a).effects, (f a).result⟩

/-- Performs one effect. -/
def emit (e : Effect) : Eff Unit := ⟨[e], .ok ()⟩

/-- An evaluation that may throw and has no effect. -/
def lift {α : Type} (r : Except JsError α) : Eff α := ⟨[], r⟩

instance : Monad Eff where
  pure := ret
  bind := andThen

end Eff

/-- The rendered regions: elapsed time, top-result summary and list. -/
structure Display where
  processingTime : String
  topResumeName : String
  topResumeScore : String
  topResumeMatches : String
  allResults : List String
deriving DecidableEq, Repr

namespace Display

/-- The display after one effect. -/
def step (d : Display) : Effect → Display
  | .setText .processingTime t => { d with processingTime := t }
  | .setText .topResumeName t => { d with topResumeName := t }
  | .setText .topResumeScore t => { d with topResumeScore := t }
  | .setText .topResumeMatches t => { d with topResumeMatches := t }
  | .clearAllResults => { d with allResults := [] }
  | .appendAllResults item => { d with allResults := d.allResults ++ [item] }
  | _ => d

/-- The display after a sequence of effects. -/
def run (d : Display) (trace : List Effect) : Display := trace.foldl step d

end Display

/-- The requests dispatched in a trace. -/
def requests (trace : List Effect) : List Request :=
  trace.filterMap (fun e => match e with | .fetch r => some r | _ => none)

/-- The notices shown in a trace. -/
def alerts (trace : List Effect) : List String :=
  trace.filterMap (fun e => match e with | .alert m => some m | _ => none)

/-- The errors logged in a trace. -/
def logged (trace : List Effect) : List JsError :=
  trace.filterMap (fun e => match e with | .consoleError x => some x | _ => none)

/-- The texts assigned to the elapsed-time element in a trace. -/
def elapsedWrites (trace : List Effect) : List String :=
  trace.filterMap
    (fun e => match e with | .setText .processingTime t => some t | _ => none)

/-! ## The handler -/

/-- Line 1: `window.RESUME_API_BASE_URL || ''`, for a slot that is unset or
holds a string. -/
def RESUME_API_BASE_URL (windowSlot : Option String) : String :=
  match windowSlot with
  | some s => if s ≠ "" then s else ""
  | none => ""

/-- Lines 18 to 22: the form data of a submission. -/
def buildFormData (jobDescription : String) (resumeFiles : List File) : FormData :=
  let formData : FormData := FormData.append [] "job_description" (.text jobDescription)
  (List.range resumeFiles.length).foldl
    (fun fd i =>
      match resumeFiles.get? i with
      | some f => FormData.append fd "resumes" (.file f)
      | none => fd)
    formData

/-- The text `(x * 100).toFixed(2)` followed by a percent sign. -/
def percentText (score : JsNum) : String := score.mul100.toFixed2 ++ "%"

/-- Lines 49 to 51: one list entry. -/
def renderItem (r : JsVal) : Eff Unit := do
  let filename ← Eff.lift (r.getProp "filename")
  let name ← Eff.lift filename.toStr
  let score ← Eff.lift (r.getProp "score")
  let x ← Eff.lift score.toNumber
  Eff.emit (.appendAllResults (name ++ " — " ++ percentText x))

/-- Lines 48 to 52: the callback applied to each element in turn. -/
def forEachItem : List JsVal → Eff Unit
  | [] => pure ()
  | r :: rest => do
    renderItem r
    forEachItem rest

/-- Lines 39 to 41: the summary of a top result that is present. -/
def renderTopResume (top : JsVal) : Eff Unit := do
  let filename ← Eff.lift (top.getProp "filename")
  let name ← Eff.lift filename.toInnerText
  Eff.emit (.setText .topResumeName name)
  let score ← Eff.lift (top.getProp "score")
  let x ← Eff.lift score.toNumber
  Eff.emit (.setText .topResumeScore ("Score: " ++ percentText x))
  let details ← Eff.lift (top.getProp "details")
  let found ← Eff.lift (details.getProp "matches")
  let keywords ← Eff.lift found.toStr
  Eff.emit (.setText .topResumeMatches ("Matched Keywords: " ++ keywords))

/-- Lines 46 to 52: the list is emptied and refilled. -/
def renderAllResults (data : JsVal) : Eff Unit := do
  Eff.emit .clearAllResults
  let all ← Eff.lift (data.getProp "all_results")
  let items ← Eff.lift all.forEachItems
  forEachItem items

/-- Lines 38 to 52: the top-result summary and the list. -/
def render (data : JsVal) : Eff Unit := do
  let top ← Eff.lift (data.getProp "top_resume")
  (if top.truthy then
    renderTopResume top
  else
    Eff.emit (.setText .topResumeName "No resumes found"))
  renderAllResults data

/-- The text assigned to the elapsed-time element on lines 34 and 35. -/
def elapsedText (startTime arrivalTime : Timestamp) : String :=
  "Processed in " ++ ((arrivalTime.ms.sub startTime.ms).div1000).toFixed2 ++ " seconds"

/-- Lines 27 to 52: the body of the `try` block. -/
def tryBlock (baseUrl : String) (formData : FormData) (env : Env) : Eff Unit := do
  Eff.emit (.fetch ⟨"POST", baseUrl ++ "/upload", formData⟩)
  let response ← Eff.lift env.fetch
  let data ← Eff.lift response.json
  Eff.emit (.setText .processingTime (elapsedText env.startTime env.arrivalTime))
  render data

/-- Lines 54 to 57: the `catch` block. -/
def catchBlock (error : JsError) : List Effect :=
  [.consoleError error,
   .alert "Error connecting to backend. Make sure Flask server is running."]

/-- Lines 3 to 58: one run of the click handler, as the trace of its effects.
`windowSlot` is `window.RESUME_API_BASE_URL`, `jobDescriptionValue` the text
of the `jobDescription` element and `resumeFiles` the selection of the
`resumeFiles` element. -/
def submit (windowSlot : Option String) (jobDescriptionValue : String)
    (resumeFiles : List File) (env : Env) : List Effect :=
  let jobDescription := jsTrim jobDescriptionValue
  if jobDescription = "" then
    [.alert "Please enter job description."]
  else if resumeFiles.length = 0 then
    [.alert "Please upload at least one resume file."]
  else
    let formData := buildFormData jobDescription resumeFiles
    let tried := tryBlock (RESUME_API_BASE_URL windowSlot) formData env
    match tried.result with
    | .ok _ => tried.effects
    | .error e => tried.effects ++ catchBlock e

/-! ## Auxiliary notions used in the statements -/

namespace Eff

/-- Every effect of a computation satisfies `P`. -/
def Only {α : Type} (P : Effect → Prop) (m : Eff α) : Prop := ∀ e ∈ m.effects, P e

end Eff

/-- The effects of the rendering code: writes to the top-result summary and
to the list. -/
def Effect.isRender : Effect → Prop
  | .setText .topResumeName _ => True
  | .setText .topResumeScore _ => True
  | .setText .topResumeMatches _ => True
  | .clearAllResults => True
  | .appendAllResults _ => True
  | _ => False

/-- The request built from a valid input. -/
def requestOf (windowSlot : Option String) (jobDescriptionValue : String)
    (resumeFiles : List File) : Request :=
  ⟨"POST", RESUME_API_BASE_URL windowSlot ++ "/upload",
   buildFormData (jsTrim jobDescriptionValue) resumeFiles⟩

/-- The rendering of a non-negative number with exactly two digits after the
decimal point, as the specification words it: the multiple of `1 / 100`
nearest to `x` (the larger one on a tie), written as the decimal digits of its
integer part, a point, and its two fraction digits. -/
def twoDecimals (x : ℚ) : String :=
  let n := ⌊x * 100 + 1 / 2⌋₊
  String.mk (Nat.toDigits 10 (n / 100) ++
    ['.', Nat.digitChar (n / 10 % 10), Nat.digitChar (n % 10)])

/-- The value `v` has the shape of a scored result: a `filename` that is a
text and a `score` that is a number between 0 and 1. -/
def IsScoredResult (v : JsVal) (filename : String) (score : Double) : Prop :=
  v.getProp "filename" = .ok (.str filename) ∧
  v.getProp "score" = .ok (.num (.fin score)) ∧
  0 ≤ score.toRat ∧ score.toRat ≤ 1

/-- The list entry of a result: file name, a dash, and the binary64 product
`score * 100` to two decimal places followed by a percent sign. -/
def entryText (r : String × Double) : String :=
  r.1 ++ " — " ++ twoDecimals (JsNum.mul100 (.fin r.2)).toRat ++ "%"

/-- The value `data` is a well-formed scoring response: `all_results` is a
list of scored results, those of `results` in order, and `top_resume` is
either missing or `null` (`top = none`) or a scored result whose `details`
object carries the text `matches` (`top = some (name, score, matches)`). -/
def IsScoringResponse (data : JsVal) (top : Option (String × Double × String))
    (results : List (String × Double)) : Prop :=
  (∃ items, data.getProp "all_results" = .ok (.arr items) ∧
    List.Forall₂ (fun v r => IsScoredResult v r.1 r.2) items results) ∧
  match top with
  | none =>
    data.getProp "top_resume" = .ok .undefined ∨ data.getProp "top_resume" = .ok .null
  | some t =>
    ∃ v detailProps, data.getProp "top_resume" = .ok v ∧ IsScoredResult v t.1 t.2.1 ∧
      v.getProp "details" = .ok (.obj detailProps) ∧
      detailProps.lookup "matches" = some (.str t.2.2)

/-- The display that shows a well-formed scoring response: the given elapsed
text, the summary of the top result (only the name is replaced when there is
none), and one entry per result. -/
def showing (prior : Display) (elapsed : String) (top : Option (String × Double × String))
    (results : List (String × Double)) : Display :=
  match top with
  | none =>
    ⟨elapsed, "No resumes found", prior.topResumeScore, prior.topResumeMatches,
      results.map entryText⟩
  | some t =>
    ⟨elapsed, t.1, "Score: " ++ twoDecimals (JsNum.mul100 (.fin t.2.1)).toRat ++ "%",
      "Matched Keywords: " ++ t.2.2, results.map entryText⟩

/-- The effects of rendering a well-formed scoring response. -/
def renderingOf (top : Option (String × Double × String))
    (results : List (String × Double)) : List Effect :=
  (match top with
    | none => [.setText .topResumeName "No resumes found"]
    | some t =>
      [.setText .topResumeName t.1,
       .setText .topResumeScore
         ("Score: " ++ twoDecimals (JsNum.mul100 (.fin t.2.1)).toRat ++ "%"),
       .setText .topResumeMatches ("Matched Keywords: " ++ t.2.2)])
  ++ .clearAllResults :: (results.map entryText).map Effect.appendAllResults

/-! ## Worked examples -/

/-- The file selection of the worked example. -/
def exampleFiles : List File := [⟨"resume1.pdf", [37, 80, 68, 70]⟩]

/-- The Number that `JSON.parse` reads from the literal `m * 10 ^ e`. -/
def literal (m : Nat) (e : Int) : JsVal := .num (Double.ofDecimal false m e)

/-- A scored result as an object with the three properties of the response. -/
def scored (filename : String) (score : JsVal) (details : JsVal) : JsVal :=
  .obj [("filename", .str filename), ("score", score), ("details", details)]

/-- The response body of the worked example: one resume scored `0.8734` that
is also the top result. -/
def exampleBody : JsVal :=
  .obj [("top_resume",
          scored "resume1.pdf" (literal 8734 (-4)) (.obj [("matches", .str "python, go")])),
        ("all_results", .arr [scored "resume1.pdf" (literal 8734 (-4)) (.obj [])])]

/-- A well-formed response body whose one resume is scored `0.00015`. -/
def tieBody : JsVal :=
  .obj [("top_resume",
          scored "resume3.pdf" (literal 15 (-5)) (.obj [("matches", .str "go")])),
        ("all_results", .arr [scored "resume3.pdf" (literal 15 (-5)) (.obj [])])]

/-- A response body without `all_results`. -/
def bodyWithoutList : JsVal :=
  .obj [("top_resume",
          scored "resume2.pdf" (literal 5 (-1)) (.obj [("matches", .str "sql")]))]

/-- A response body that is not of the scoring shape, its one entry being the
Number 1, and that renders without a failing read. -/
def bodyWithNumberEntry : JsVal := .obj [("all_results", .arr [literal 1 0])]

/-- A response body with no top result and an empty list. -/
def emptyBody : JsVal := .obj [("all_results", .arr [])]

/-- A display left by an earlier submission. -/
def earlierDisplay : Display :=
  ⟨"Processed in 0.80 seconds", "resume9.pdf", "Score: 12.00%", "Matched Keywords: rust",
   ["resume9.pdf — 12.00%"]⟩

/-- An environment whose clock reads 1000 ms before the request is sent and
2234.5 ms once the given response has arrived. -/
def answered (status : Nat) (json : Except JsError JsVal) : Env :=
  ⟨⟨⟨1000, 0⟩, by decide⟩, ⟨⟨4469, -1⟩, by decide⟩, .ok ⟨status, json⟩⟩

/-- An environment whose clock reads 0 ms before the request is sent and 15 ms
once the given response has arrived. -/
def answeredAfter15 (status : Nat) (json : Except JsError JsVal) : Env :=
  ⟨⟨⟨0, 0⟩, by decide⟩, ⟨⟨15, 0⟩, by decide⟩, .ok ⟨status, json⟩⟩

/-- An environment in which the request is rejected. -/
def offline : Env :=
  ⟨⟨⟨0, 0⟩, by decide⟩, ⟨⟨5, 0⟩, by decide⟩, .error (.rejection "offline")⟩
/-! ## Number formatting -/

theorem toDigitsCore_acc (fuel : Nat) : ∀ (n : Nat) (acc : List Char),
    Nat.toDigitsCore 10 fuel n acc = Nat.toDigitsCore 10 fuel n [] ++ acc := by
  induction fuel with
  | zero => intro n acc; simp [Nat.toDigitsCore]
  | succ f ih =>
    intro n acc
    simp only [Nat.toDigitsCore]
    by_cases h : n / 10 = 0
    · simp [h]
    · simp only [h, if_false]
      rw [ih (n / 10) (Nat.digitChar (n % 10) :: acc), ih (n / 10) [Nat.digitChar (n % 10)]]
      simp

theorem toDigitsCore_fuel (f : Nat) : ∀ (g n : Nat) (acc : List Char), n < f → n < g →
    Nat.toDigitsCore 10 f n acc = Nat.toDigitsCore 10 g n acc := by
  induction f with
  | zero => intro g n acc h; omega
  | succ f ih =>
    intro g n acc hf hg
    cases g with
    | zero => omega
    | succ g =>
      simp only [Nat.toDigitsCore]
      by_cases h : n / 10 = 0
      · simp [h]
      · simp only [h, if_false]
        apply ih <;> omega

theorem toDigits_lt (n : Nat) (h : n < 10) : Nat.toDigits 10 n = [Nat.digitChar n] := by
  have h0 : n / 10 = 0 := by omega
  have h1 : n % 10 = n := by omega
  simp [Nat.toDigits, Nat.toDigitsCore, h0, h1]

theorem toDigits_ge (n : Nat) (h : 10 ≤ n) :
    Nat.toDigits 10 n = Nat.toDigits 10 (n / 10) ++ [Nat.digitChar (n % 10)] := by
  have h0 : n / 10 ≠ 0 := by omega
  have hstep : Nat.toDigitsCore 10 (n + 1) n []
      = Nat.toDigitsCore 10 n (n / 10) [Nat.digitChar (n % 10)] := by
    simp only [Nat.toDigitsCore, h0, if_false]
  unfold Nat.toDigits
  rw [hstep, toDigitsCore_acc,
    toDigitsCore_fuel n (n / 10 + 1) (n / 10) [] (by omega) (by omega)]

theorem toDigits_ne_nil (n : Nat) : Nat.toDigits 10 n ≠ [] := by
  by_cases h : n < 10
  · rw [toDigits_lt n h]; simp
  · rw [toDigits_ge n (by omega)]; simp

theorem fixedDigits_eq (n : Nat) :
    Double.fixedDigits n = String.mk (Nat.toDigits 10 (n / 100) ++
      ['.', Nat.digitChar (n / 10 % 10), Nat.digitChar (n % 10)]) := by
  unfold Double.fixedDigits
  by_cases h10 : n < 10
  · have e1 : n / 100 = 0 := by omega
    have e2 : n / 10 % 10 = 0 := by omega
    have e3 : n % 10 = n := by omega
    rw [e1, e2, e3]
    by_cases hz : n = 0
    · subst hz; rfl
    · simp only [hz, if_false, toDigits_lt n h10]
      rfl
  · have hz : n ≠ 0 := by omega
    simp only [hz, if_false]
    rw [toDigits_ge n (by omega)]
    by_cases h100 : n < 100
    · have e1 : n / 100 = 0 := by omega
      have e2 : n / 10 % 10 = n / 10 := by omega
      rw [e1, e2, toDigits_lt (n / 10) (by omega)]
      rfl
    · have e1 : n / 10 / 10 = n / 100 := by omega
      rw [toDigits_ge (n / 10) (by omega), e1]
      have hne := toDigits_ne_nil (n / 100)
      have hlen : 0 < (Nat.toDigits 10 (n / 100)).length := List.length_pos.mpr hne
      have hnot : ¬ ((Nat.toDigits 10 (n / 100) ++ [Nat.digitChar (n / 10 % 10)] ++
          [Nat.digitChar (n % 10)]).length ≤ 2) := by
        simp only [List.length_append, List.length_cons, List.length_nil]
        omega
      simp only [hnot, if_false]
      have hk : (Nat.toDigits 10 (n / 100) ++ [Nat.digitChar (n / 10 % 10)] ++
          [Nat.digitChar (n % 10)]).length - 2 = (Nat.toDigits 10 (n / 100)).length := by
        simp only [List.length_append, List.length_cons, List.length_nil]
        omega
      rw [hk, List.append_assoc, List.take_left, List.drop_left]
      rfl

namespace Double

theorem two_zpow_pos (e : Int) : (0 : ℚ) < (2 : ℚ) ^ e := zpow_pos (by norm_num) e

theorem toRat_nonneg_iff (d : Double) : 0 ≤ d.toRat ↔ 0 ≤ d.mant := by
  unfold toRat
  constructor
  · intro h
    have := nonneg_of_mul_nonneg_left h (two_zpow_pos d.exp)
    exact_mod_cast this
  · intro h
    have hm : (0 : ℚ) ≤ (d.mant : ℚ) := by exact_mod_cast h
    exact mul_nonneg hm (le_of_lt (two_zpow_pos d.exp))

theorem zpow_of_nonneg (e : Int) (he : 0 ≤ e) : (2 : ℚ) ^ e = ((2 ^ e.toNat : Nat) : ℚ) := by
  push_cast
  rw [← zpow_natCast, Int.toNat_of_nonneg he]

theorem zpow_of_neg (e : Int) (he : ¬ 0 ≤ e) :
    (2 : ℚ) ^ e = 1 / ((2 ^ (-e).toNat : Nat) : ℚ) := by
  have hk : e = -(((-e).toNat : Nat) : Int) := by
    rw [Int.toNat_of_nonneg (by omega)]
    omega
  conv_lhs => rw [hk, zpow_neg, zpow_natCast]
  push_cast
  rw [one_div]

theorem roundCents_eq (a : Nat) (e : Int) :
    roundCents ⟨(a : Int), e⟩ = ⌊(⟨(a : Int), e⟩ : Double).toRat * 100 + 1 / 2⌋₊ := by
  simp only [roundCents, toRat, Int.natAbs_ofNat]
  by_cases he : 0 ≤ e
  · simp only [he, if_true]
    have hx : ((a : Int) : ℚ) * (2 : ℚ) ^ e * 100 = ((a * 2 ^ e.toNat * 100 : Nat) : ℚ) := by
      rw [zpow_of_nonneg e he]
      push_cast
      ring
    rw [hx]
    symm
    rw [Nat.floor_eq_iff (by positivity)]
    constructor <;> norm_num
  · simp only [he, if_false]
    have hp : (0 : ℚ) < ((2 ^ (-e).toNat : Nat) : ℚ) := by positivity
    have hx : ((a : Int) : ℚ) * (2 : ℚ) ^ e * 100 + 1 / 2
        = (((2 * (100 * a) + 2 ^ (-e).toNat : Nat) : ℚ))
          / ((2 * 2 ^ (-e).toNat : Nat) : ℚ) := by
      rw [zpow_of_neg e he]
      push_cast at hp ⊢
      field_simp
      ring
    rw [hx, Nat.floor_div_eq_div]

theorem geTenPow21_false (a : Nat) (e : Int)
    (h : (⟨(a : Int), e⟩ : Double).toRat < 10 ^ 21) :
    geTenPow21 ⟨(a : Int), e⟩ = false := by
  simp only [geTenPow21, toRat, Int.natAbs_ofNat] at h ⊢
  by_cases he : 0 ≤ e
  · simp only [he, if_true, decide_eq_false_iff_not, not_le]
    rw [zpow_of_nonneg e he] at h
    exact_mod_cast h
  · simp only [he, if_false, decide_eq_false_iff_not, not_le]
    have hp : (0 : ℚ) < ((2 ^ (-e).toNat : Nat) : ℚ) := by positivity
    rw [zpow_of_neg e he, mul_one_div, div_lt_iff₀ hp] at h
    exact_mod_cast h

theorem toFixed2_eq_twoDecimals (d : Double) (h0 : 0 ≤ d.toRat) (h1 : d.toRat < 10 ^ 21) :
    d.toFixed2 = twoDecimals d.toRat := by
  have hm : 0 ≤ d.mant := (toRat_nonneg_iff d).mp h0
  obtain ⟨m, e⟩ := d
  simp only at hm
  obtain ⟨a, rfl⟩ := Int.eq_ofNat_of_zero_le hm
  have hneg : ¬ ((a : Int) < 0) := by omega
  simp only [toFixed2, hneg, if_false, Int.natAbs_ofNat, geTenPow21_false a e h1,
    roundCents_eq a e, fixedDigits_eq, twoDecimals]
  simp

end Double

/-! ## Rounding -/

namespace Double

theorem bitLength_zero (fuel : Nat) : bitLength fuel 0 = 0 := by
  cases fuel <;> simp [bitLength]

theorem bitLength_spec (fuel : Nat) : ∀ n : Nat, n ≤ fuel →
    n < 2 ^ bitLength fuel n ∧ (0 < n → 2 ^ (bitLength fuel n - 1) ≤ n) := by
  induction fuel with
  | zero =>
    intro n hn
    have : n = 0 := by omega
    subst this
    simp [bitLength]
  | succ f ih =>
    intro n hn
    by_cases h0 : n = 0
    · subst h0
      simp [bitLength]
    · simp only [bitLength, h0, if_false, Nat.add_sub_cancel]
      obtain ⟨h1, h2⟩ := ih (n / 2) (by omega)
      constructor
      · rw [pow_succ]
        omega
      · intro _
        by_cases hh : n / 2 = 0
        · rw [hh, bitLength_zero]
          simp
          omega
        · have h3 := h2 (by omega)
          have hpos : 0 < bitLength f (n / 2) := by
            by_contra hc
            have : bitLength f (n / 2) = 0 := by omega
            rw [this] at h1
            simp at h1
            omega
          have : bitLength f (n / 2) = (bitLength f (n / 2) - 1) + 1 := by omega
          rw [this, pow_succ]
          omega

theorem lt_two_pow_bits (n : Nat) : n < 2 ^ bits n := (bitLength_spec n n (le_refl n)).1

theorem two_pow_bits_le (n : Nat) (h : 0 < n) : 2 ^ bits n ≤ 2 * n := by
  have h2 := (bitLength_spec n n (le_refl n)).2 h
  have hpos : 0 < bits n := by
    by_contra hc
    have h0 : bits n = 0 := by omega
    have := lt_two_pow_bits n
    rw [h0] at this
    omega
  have : bits n = (bits n - 1) + 1 := by omega
  rw [this, pow_succ]
  unfold bits
  omega

/-- The power of two at `bits p - bits q` is at most twice `p / q`. -/
theorem two_zpow_bits_sub_le (p q : Nat) (hp : 0 < p) (hq : 0 < q) :
    (2 : ℚ) ^ ((bits p : Int) - (bits q : Int)) ≤ 2 * ((p : ℚ) / q) := by
  rw [zpow_sub₀ (by norm_num : (2 : ℚ) ≠ 0), zpow_natCast, zpow_natCast]
  have h1 : ((2 : ℚ) ^ bits p) ≤ 2 * p := by exact_mod_cast two_pow_bits_le p hp
  have h2 : (q : ℚ) ≤ (2 : ℚ) ^ bits q := by exact_mod_cast le_of_lt (lt_two_pow_bits q)
  have hq0 : (0 : ℚ) < q := by exact_mod_cast hq
  have hp0 : (0 : ℚ) ≤ p := by positivity
  calc (2 : ℚ) ^ bits p / (2 : ℚ) ^ bits q ≤ (2 * p) / (2 : ℚ) ^ bits q := by gcongr
    _ ≤ (2 * p) / q := by gcongr
    _ = 2 * ((p : ℚ) / q) := by ring

theorem floorLog2_le (p q : Nat) : floorLog2 p q ≤ (bits p : Int) - (bits q : Int) := by
  unfold floorLog2
  simp only
  split <;> omega

/-- The exponent chosen by `ofRatio` keeps the unit in the last place at most
`2 * (p / q) + 1`. -/
theorem ulp_le (p q : Nat) (hp : 0 < p) (hq : 0 < q) :
    (2 : ℚ) ^ (max (floorLog2 p q - 52) (-1074)) ≤ 2 * ((p : ℚ) / q) + 1 := by
  have hx : (0 : ℚ) ≤ (p : ℚ) / q := by positivity
  rcases max_cases (floorLog2 p q - 52) (-1074) with ⟨h, _⟩ | ⟨h, _⟩
  · rw [h]
    have hle : floorLog2 p q - 52 ≤ (bits p : Int) - (bits q : Int) := by
      have := floorLog2_le p q
      omega
    calc (2 : ℚ) ^ (floorLog2 p q - 52) ≤ (2 : ℚ) ^ ((bits p : Int) - (bits q : Int)) :=
          zpow_le_zpow_right₀ (by norm_num) hle
      _ ≤ 2 * ((p : ℚ) / q) := two_zpow_bits_sub_le p q hp hq
      _ ≤ 2 * ((p : ℚ) / q) + 1 := by linarith
  · rw [h]
    have : (2 : ℚ) ^ (-1074 : Int) ≤ 1 := zpow_le_one_of_nonpos₀ (by norm_num) (by norm_num)
    linarith

theorem roundHalfEven_near (num den : Nat) (hden : 0 < den) :
    |((roundHalfEven num den : Nat) : ℚ) - (num : ℚ) / den| ≤ 1 / 2 := by
  have hd : (0 : ℚ) < den := by exact_mod_cast hden
  have hsplit : (num : ℚ) = (den : ℚ) * ((num / den : Nat) : ℚ) + ((num % den : Nat) : ℚ) := by
    exact_mod_cast (Nat.div_add_mod num den).symm
  have hv : (num : ℚ) / den = ((num / den : Nat) : ℚ) + ((num % den : Nat) : ℚ) / den := by
    rw [hsplit]
    field_simp
    ring
  have hr0 : (0 : ℚ) ≤ ((num % den : Nat) : ℚ) / den := by positivity
  rw [hv, abs_le]
  unfold roundHalfEven
  simp only
  by_cases h1 : 2 * (num % den) < den
  · simp only [h1, if_true]
    have : ((num % den : Nat) : ℚ) / den ≤ 1 / 2 := by
      rw [div_le_iff₀ hd]
      have : ((2 * (num % den) : Nat) : ℚ) ≤ den := by exact_mod_cast le_of_lt h1
      push_cast at this
      linarith
    constructor <;> linarith
  · simp only [h1, if_false]
    by_cases h2 : den < 2 * (num % den)
    · simp only [h2, if_true]
      have hlt : ((num % den : Nat) : ℚ) / den ≤ 1 := by
        rw [div_le_iff₀ hd]
        have : num % den < den := Nat.mod_lt _ hden
        have : ((num % den : Nat) : ℚ) ≤ den := by exact_mod_cast le_of_lt this
        linarith
      have hge : 1 / 2 ≤ ((num % den : Nat) : ℚ) / den := by
        rw [le_div_iff₀ hd]
        have : ((den : Nat) : ℚ) ≤ ((2 * (num % den) : Nat) : ℚ) := by
          exact_mod_cast le_of_lt h2
        push_cast at this
        linarith
      push_cast
      constructor <;> linarith
    · simp only [h2, if_false]
      have heq : 2 * (num % den) = den := by omega
      have hhalf : ((num % den : Nat) : ℚ) / den = 1 / 2 := by
        rw [div_eq_iff (ne_of_gt hd)]
        have : ((2 * (num % den) : Nat) : ℚ) = den := by exact_mod_cast heq
        push_cast at this
        linarith
      split
      · rw [hhalf]
        constructor <;> norm_num
      · rw [hhalf]
        push_cast
        constructor <;> norm_num

theorem two_zpow_pred_bits_le (p q : Nat) (hp : 0 < p) (hq : 0 < q) :
    (2 : ℚ) ^ ((bits p : Int) - (bits q : Int) - 1) ≤ (p : ℚ) / q := by
  have hq0 : (0 : ℚ) < q := by exact_mod_cast hq
  have h1 : ((2 : ℚ) ^ bits p) ≤ 2 * p := by exact_mod_cast two_pow_bits_le p hp
  have h2 : (q : ℚ) ≤ (2 : ℚ) ^ bits q := by exact_mod_cast le_of_lt (lt_two_pow_bits q)
  have hb : (0 : ℚ) < (2 : ℚ) ^ bits q := by positivity
  have hp0 : (0 : ℚ) ≤ p := by positivity
  have hsplit : (bits p : Int) - (bits q : Int) - 1
      = ((bits p : Int) - 1) - (bits q : Int) := by ring
  rw [hsplit, zpow_sub₀ (by norm_num : (2 : ℚ) ≠ 0), zpow_sub₀ (by norm_num : (2 : ℚ) ≠ 0),
    zpow_natCast, zpow_natCast, zpow_one]
  calc (2 : ℚ) ^ bits p / 2 / (2 : ℚ) ^ bits q ≤ (2 * p) / 2 / (2 : ℚ) ^ bits q := by gcongr
    _ = (p : ℚ) / (2 : ℚ) ^ bits q := by ring
    _ ≤ (p : ℚ) / q := by gcongr

theorem two_zpow_floorLog2_le (p q : Nat) (hp : 0 < p) (hq : 0 < q) :
    (2 : ℚ) ^ floorLog2 p q ≤ (p : ℚ) / q := by
  have hq0 : (0 : ℚ) < q := by exact_mod_cast hq
  have hpred := two_zpow_pred_bits_le p q hp hq
  unfold floorLog2
  simp only
  by_cases ha : 0 ≤ (bits p : Int) - (bits q : Int)
  · simp only [ha, if_true]
    by_cases hreach : q * 2 ^ ((bits p : Int) - (bits q : Int)).toNat ≤ p
    · simp only [hreach, decide_True, if_true]
      rw [zpow_of_nonneg _ ha, le_div_iff₀ hq0]
      have : ((q * 2 ^ ((bits p : Int) - (bits q : Int)).toNat : Nat) : ℚ) ≤ p := by
        exact_mod_cast hreach
      push_cast at this ⊢
      linarith
    · simp only [hreach, decide_False, if_false]
      exact hpred
  · simp only [ha, if_false]
    by_cases hreach : q ≤ p * 2 ^ (-((bits p : Int) - (bits q : Int))).toNat
    · simp only [hreach, decide_True, if_true]
      have hpos : (0 : ℚ) < ((2 ^ (-((bits p : Int) - (bits q : Int))).toNat : Nat) : ℚ) := by
        positivity
      rw [zpow_of_neg _ ha, div_le_div_iff₀ hpos hq0]
      have : ((q : Nat) : ℚ)
          ≤ ((p * 2 ^ (-((bits p : Int) - (bits q : Int))).toNat : Nat) : ℚ) := by
        exact_mod_cast hreach
      push_cast at this ⊢
      linarith
    · simp only [hreach, decide_False, if_false]
      exact hpred

/-- The unit in the last place chosen by `ofRatio` is at most `2 ^ -52` of
the ratio, or the least subnormal step. -/
theorem ulp_le_relative (p q : Nat) (hp : 0 < p) (hq : 0 < q) :
    (2 : ℚ) ^ (max (floorLog2 p q - 52) (-1074))
      ≤ (p : ℚ) / q * (2 : ℚ) ^ (-52 : Int) + (2 : ℚ) ^ (-1074 : Int) := by
  have hx : (0 : ℚ) ≤ (p : ℚ) / q := by positivity
  have hpos1 : (0 : ℚ) < (2 : ℚ) ^ (-52 : Int) := two_zpow_pos _
  have hpos2 : (0 : ℚ) < (2 : ℚ) ^ (-1074 : Int) := two_zpow_pos _
  rcases max_cases (floorLog2 p q - 52) (-1074) with ⟨h, _⟩ | ⟨h, _⟩
  · rw [h, sub_eq_add_neg, zpow_add₀ (by norm_num : (2 : ℚ) ≠ 0)]
    have := two_zpow_floorLog2_le p q hp hq
    have h3 : (2 : ℚ) ^ floorLog2 p q * (2 : ℚ) ^ (-52 : Int)
        ≤ (p : ℚ) / q * (2 : ℚ) ^ (-52 : Int) := by gcongr
    linarith
  · rw [h]
    have : 0 ≤ (p : ℚ) / q * (2 : ℚ) ^ (-52 : Int) := by positivity
    linarith

/-- Rounding a non-negative ratio far below the overflow threshold gives a
finite, non-negative Number within half a unit in the last place. -/
theorem ofRatio_accurate (p q : Nat) (hq : 0 < q) (hsmall : (p : ℚ) / q ≤ 2 ^ 100) :
    ∃ d : Double, ofRatio false p q = .fin d ∧ 0 ≤ d.mant ∧
      |d.toRat - (p : ℚ) / q|
        ≤ (p : ℚ) / q * (2 : ℚ) ^ (-53 : Int) + (2 : ℚ) ^ (-1075 : Int) := by
  by_cases hp0 : p = 0
  · subst hp0
    refine ⟨⟨0, 0⟩, by simp [ofRatio], le_refl _, ?_⟩
    simp [toRat]
    positivity
  have hp : 0 < p := Nat.pos_of_ne_zero hp0
  have hulp := ulp_le_relative p q hp hq
  have hulp2 := ulp_le p q hp hq
  set e : Int := max (floorLog2 p q - 52) (-1074) with he
  set m : Nat := if 0 ≤ e then roundHalfEven p (q * 2 ^ e.toNat)
      else roundHalfEven (p * 2 ^ (-e).toNat) q with hm
  have hq0 : (0 : ℚ) < q := by exact_mod_cast hq
  have hepos : (0 : ℚ) < (2 : ℚ) ^ e := two_zpow_pos e
  have hval : |(m : ℚ) * (2 : ℚ) ^ e - (p : ℚ) / q| ≤ (2 : ℚ) ^ e / 2 := by
    by_cases hs : 0 ≤ e
    · have hden : 0 < q * 2 ^ e.toNat := by positivity
      have h1 := roundHalfEven_near p (q * 2 ^ e.toNat) hden
      simp only [hm, hs, if_true]
      have hpos : (0 : ℚ) < ((2 ^ e.toNat : Nat) : ℚ) := by positivity
      have hfac : ((roundHalfEven p (q * 2 ^ e.toNat) : Nat) : ℚ) * (2 : ℚ) ^ e - (p : ℚ) / q
          = (((roundHalfEven p (q * 2 ^ e.toNat) : Nat) : ℚ)
              - (p : ℚ) / ((q * 2 ^ e.toNat : Nat) : ℚ)) * (2 : ℚ) ^ e := by
        rw [zpow_of_nonneg e hs]
        push_cast at hpos ⊢
        field_simp
        ring
      rw [hfac, abs_mul, abs_of_pos hepos]
      calc |((roundHalfEven p (q * 2 ^ e.toNat) : Nat) : ℚ)
              - (p : ℚ) / ((q * 2 ^ e.toNat : Nat) : ℚ)| * (2 : ℚ) ^ e
          ≤ (1 / 2) * (2 : ℚ) ^ e := by gcongr
        _ = (2 : ℚ) ^ e / 2 := by ring
    · have h1 := roundHalfEven_near (p * 2 ^ (-e).toNat) q hq
      simp only [hm, hs, if_false]
      have hpos : (0 : ℚ) < ((2 ^ (-e).toNat : Nat) : ℚ) := by positivity
      have hfac : ((roundHalfEven (p * 2 ^ (-e).toNat) q : Nat) : ℚ) * (2 : ℚ) ^ e - (p : ℚ) / q
          = (((roundHalfEven (p * 2 ^ (-e).toNat) q : Nat) : ℚ)
              - ((p * 2 ^ (-e).toNat : Nat) : ℚ) / q) * (2 : ℚ) ^ e := by
        rw [zpow_of_neg e hs]
        push_cast at hpos ⊢
        field_simp
        ring
      rw [hfac, abs_mul, abs_of_pos hepos]
      calc |((roundHalfEven (p * 2 ^ (-e).toNat) q : Nat) : ℚ)
              - ((p * 2 ^ (-e).toNat : Nat) : ℚ) / q| * (2 : ℚ) ^ e
          ≤ (1 / 2) * (2 : ℚ) ^ e := by gcongr
        _ = (2 : ℚ) ^ e / 2 := by ring
  have hno : ¬ (972 ≤ e ∨ (e = 971 ∧ 2 ^ 53 ≤ m)) := by
    intro hov
    have hge : (971 : Int) ≤ e := by
      rcases hov with h | ⟨h, _⟩ <;> omega
    have h1 : (2 : ℚ) ^ (971 : Int) ≤ (2 : ℚ) ^ e := zpow_le_zpow_right₀ (by norm_num) hge
    have h2 : (2 : ℚ) ^ (971 : Int) ≤ 2 * 2 ^ 100 + 1 := by linarith
    norm_num at h2
  refine ⟨⟨(m : Int), e⟩, ?_, by simp, ?_⟩
  · unfold ofRatio
    simp only [hp0, if_false]
    rw [← he, ← hm]
    simp only [hno, if_false]
    simp
  · simp only [toRat]
    push_cast
    have h53 : (p : ℚ) / q * (2 : ℚ) ^ (-53 : Int) = (p : ℚ) / q * (2 : ℚ) ^ (-52 : Int) / 2 := by
      rw [show (-53 : Int) = -52 + -1 by norm_num, zpow_add₀ (by norm_num : (2 : ℚ) ≠ 0)]
      norm_num
      ring
    have h1075 : (2 : ℚ) ^ (-1075 : Int) = (2 : ℚ) ^ (-1074 : Int) / 2 := by
      rw [show (-1075 : Int) = -1074 + -1 by norm_num, zpow_add₀ (by norm_num : (2 : ℚ) ≠ 0)]
      norm_num
    rw [h53, h1075]
    linarith

/-- One rounded scaling of a non-negative Number stays finite, non-negative and
within half a unit in the last place of the exact result. -/
theorem scale_accurate (d : Double) (num den : Nat) (hd : 0 ≤ d.mant) (hden : 0 < den)
    (hsmall : d.toRat * num / den ≤ 2 ^ 100) :
    ∃ c : Double, scale d num den = .fin c ∧ 0 ≤ c.mant ∧
      |c.toRat - d.toRat * num / den|
        ≤ d.toRat * num / den * (2 : ℚ) ^ (-53 : Int) + (2 : ℚ) ^ (-1075 : Int) := by
  obtain ⟨m, e⟩ := d
  simp only at hd
  obtain ⟨a, rfl⟩ := Int.eq_ofNat_of_zero_le hd
  have hneg : ¬ ((a : Int) < 0) := by omega
  have hden0 : (0 : ℚ) < den := by exact_mod_cast hden
  simp only [toRat] at hsmall ⊢
  unfold scale
  simp only [hneg, decide_False, Int.natAbs_ofNat]
  by_cases he : 0 ≤ e
  · simp only [he, if_true]
    have hx : ((a * num * 2 ^ e.toNat : Nat) : ℚ) / den
        = ((a : Int) : ℚ) * (2 : ℚ) ^ e * num / den := by
      rw [zpow_of_nonneg e he]
      push_cast
      ring
    have := ofRatio_accurate (a * num * 2 ^ e.toNat) den hden (by rw [hx]; exact hsmall)
    rw [hx] at this
    exact this
  · simp only [he, if_false]
    have hpos : (0 : ℚ) < ((2 ^ (-e).toNat : Nat) : ℚ) := by positivity
    have hx : ((a * num : Nat) : ℚ) / ((den * 2 ^ (-e).toNat : Nat) : ℚ)
        = ((a : Int) : ℚ) * (2 : ℚ) ^ e * num / den := by
      rw [zpow_of_neg e he]
      push_cast at hpos ⊢
      field_simp
      left
      ring
    have := ofRatio_accurate (a * num) (den * 2 ^ (-e).toNat) (by positivity)
      (by rw [hx]; exact hsmall)
    rw [hx] at this
    exact this

theorem scale_eq (x e : Int) (h : e ≤ x) :
    (2 : ℚ) ^ (x - e).toNat * (2 : ℚ) ^ e = (2 : ℚ) ^ x := by
  rw [← zpow_natCast, ← zpow_add₀ (by norm_num : (2 : ℚ) ≠ 0)]
  congr 1
  rw [Int.toNat_of_nonneg (by omega)]
  omega

/-- The rounded difference of two Numbers in increasing order stays finite,
non-negative and within half a unit in the last place of the exact one. -/
theorem sub_accurate (a b : Double) (hmono : b.toRat ≤ a.toRat)
    (hsmall : a.toRat - b.toRat ≤ 2 ^ 100) :
    ∃ c : Double, sub a b = .fin c ∧ 0 ≤ c.mant ∧
      |c.toRat - (a.toRat - b.toRat)|
        ≤ (a.toRat - b.toRat) * (2 : ℚ) ^ (-53 : Int) + (2 : ℚ) ^ (-1075 : Int) := by
  set e := min a.exp b.exp with he
  set diff : Int := a.mant * 2 ^ (a.exp - e).toNat - b.mant * 2 ^ (b.exp - e).toNat with hdiff
  have hval : (diff : ℚ) * (2 : ℚ) ^ e = a.toRat - b.toRat := by
    simp only [hdiff, toRat]
    push_cast
    rw [sub_mul, mul_assoc, mul_assoc, scale_eq a.exp e (min_le_left _ _),
      scale_eq b.exp e (min_le_right _ _)]
  have hnonneg : 0 ≤ diff := by
    have h1 : (0 : ℚ) ≤ (diff : ℚ) * (2 : ℚ) ^ e := by rw [hval]; linarith
    have := nonneg_of_mul_nonneg_left h1 (two_zpow_pos e)
    exact_mod_cast this
  obtain ⟨n, hn⟩ := Int.eq_ofNat_of_zero_le hnonneg
  have hneg : ¬ (diff < 0) := by omega
  unfold sub
  simp only [← he, ← hdiff, hneg, decide_False]
  rw [hn] at hval ⊢
  simp only [Int.natAbs_ofNat]
  by_cases hs : 0 ≤ e
  · simp only [hs, if_true]
    have hx : ((n * 2 ^ e.toNat : Nat) : ℚ) / ((1 : Nat) : ℚ) = a.toRat - b.toRat := by
      rw [← hval, zpow_of_nonneg e hs]
      push_cast
      ring
    have := ofRatio_accurate (n * 2 ^ e.toNat) 1 (by norm_num) (by rw [hx]; exact hsmall)
    rw [hx] at this
    exact this
  · simp only [hs, if_false]
    have hx : ((n : Nat) : ℚ) / ((2 ^ (-e).toNat : Nat) : ℚ) = a.toRat - b.toRat := by
      rw [← hval, zpow_of_neg e hs]
      push_cast
      ring
    have := ofRatio_accurate n (2 ^ (-e).toNat) (by positivity) (by rw [hx]; exact hsmall)
    rw [hx] at this
    exact this

/-- A clock reading is a Number from 0 up to, and not including, `2 ^ 53`. -/
theorem clock_range (d : Double) (h : d.isClockReading = true) :
    0 ≤ d.toRat ∧ d.toRat < 2 ^ 53 := by
  obtain ⟨m, e⟩ := d
  simp only [isClockReading, Bool.and_eq_true, decide_eq_true_eq] at h
  obtain ⟨hm, hb⟩ := h
  obtain ⟨a, rfl⟩ := Int.eq_ofNat_of_zero_le hm
  refine ⟨(toRat_nonneg_iff _).mpr hm, ?_⟩
  simp only [toRat, Int.natAbs_ofNat] at hb ⊢
  by_cases he : 0 ≤ e
  · simp only [he, if_true, decide_eq_true_eq] at hb
    rw [zpow_of_nonneg e he]
    exact_mod_cast hb
  · simp only [he, if_false, decide_eq_true_eq] at hb
    have hpos : (0 : ℚ) < ((2 ^ (-e).toNat : Nat) : ℚ) := by positivity
    rw [zpow_of_neg e he, mul_one_div, div_lt_iff₀ hpos]
    exact_mod_cast hb

theorem two_zpow_neg53_le : (2 : ℚ) ^ (-53 : Int) ≤ 2 ^ (-52 : Int) :=
  zpow_le_zpow_right₀ (by norm_num) (by norm_num)

theorem two_zpow_neg1075_le_one : (2 : ℚ) ^ (-1075 : Int) ≤ 1 :=
  zpow_le_one_of_nonpos₀ (by norm_num) (by norm_num)

end Double

/-- The elapsed seconds computed on line 35 from two clock readings in
increasing order are a finite Number from 0 up to `10 ^ 21`, within the
relative error `2 ^ -51` of the exact quotient. -/
theorem elapsed_seconds_fin (startTime arrivalTime : Timestamp)
    (hmono : startTime.ms.toRat ≤ arrivalTime.ms.toRat) :
    ∃ c : Double, (arrivalTime.ms.sub startTime.ms).div1000 = .fin c ∧
      0 ≤ c.toRat ∧ c.toRat < 10 ^ 21 ∧
      |c.toRat - (arrivalTime.ms.toRat - startTime.ms.toRat) / 1000|
        ≤ (arrivalTime.ms.toRat - startTime.ms.toRat) / 1000 * (2 : ℚ) ^ (-51 : Int)
          + (2 : ℚ) ^ (-1073 : Int) := by
  obtain ⟨hs0, _⟩ := Double.clock_range _ startTime.inRange
  obtain ⟨_, ha1⟩ := Double.clock_range _ arrivalTime.inRange
  set x : ℚ := arrivalTime.ms.toRat - startTime.ms.toRat with hx
  have hx0 : 0 ≤ x := by linarith
  have hx1 : x ≤ 2 ^ 53 := by linarith
  have hsmall : x ≤ 2 ^ 100 := by
    have : (2 : ℚ) ^ 53 ≤ 2 ^ 100 := by norm_num
    linarith
  obtain ⟨d, hd, hd0, hd1⟩ := Double.sub_accurate arrivalTime.ms startTime.ms hmono hsmall
  rw [← hx] at hd1
  have hu := Double.two_zpow_neg53_le
  have ht := Double.two_zpow_neg1075_le_one
  have hp53 : (0 : ℚ) < (2 : ℚ) ^ (-53 : Int) := Double.two_zpow_pos _
  have hp1075 : (0 : ℚ) < (2 : ℚ) ^ (-1075 : Int) := Double.two_zpow_pos _
  have h53 : (2 : ℚ) ^ (-53 : Int) ≤ 1 := zpow_le_one_of_nonpos₀ (by norm_num) (by norm_num)
  have hdabs := abs_le.mp hd1
  have hdn : 0 ≤ d.toRat := (Double.toRat_nonneg_iff d).mpr hd0
  have hdr : d.toRat ≤ 2 * x + 1 := by
    have : x * (2 : ℚ) ^ (-53 : Int) ≤ x * 1 := by gcongr
    linarith
  have hsmall2 : d.toRat * ((1 : Nat) : ℚ) / ((1000 : Nat) : ℚ) ≤ 2 ^ 100 := by
    push_cast
    rw [mul_one, div_le_iff₀ (by norm_num)]
    have h3 : (2 * 2 ^ 53 + 1 : ℚ) ≤ 2 ^ 100 * 1000 := by norm_num
    linarith
  obtain ⟨c, hc, hc0, hc1⟩ := Double.scale_accurate d 1 1000 hd0 (by norm_num) hsmall2
  push_cast at hc1
  rw [mul_one] at hc1
  have hcabs := abs_le.mp hc1
  have hq0 : 0 ≤ d.toRat / 1000 := by positivity
  have hqe : d.toRat / 1000 * (2 : ℚ) ^ (-53 : Int) ≤ d.toRat / 1000 * 1 := by gcongr
  refine ⟨c, ?_, (Double.toRat_nonneg_iff c).mpr hc0, ?_, ?_⟩
  · rw [hd]
    exact hc
  · have h4 : d.toRat / 1000 ≤ (2 * 2 ^ 53 + 1) / 1000 := by
      apply div_le_div_of_nonneg_right _ (by norm_num)
      linarith
    have h5 : (2 * ((2 * 2 ^ 53 + 1) / 1000) + 1 : ℚ) < 10 ^ 21 := by norm_num
    linarith
  · have e51 : (2 : ℚ) ^ (-51 : Int) = 4 * (2 : ℚ) ^ (-53 : Int) := by
      rw [show (-51 : Int) = 2 + -53 by norm_num, zpow_add₀ (by norm_num : (2 : ℚ) ≠ 0)]
      norm_num
    have e1073 : (2 : ℚ) ^ (-1073 : Int) = 4 * (2 : ℚ) ^ (-1075 : Int) := by
      rw [show (-1073 : Int) = 2 + -1075 by norm_num, zpow_add₀ (by norm_num : (2 : ℚ) ≠ 0)]
      norm_num
    rw [e51, e1073, abs_le]
    set u : ℚ := (2 : ℚ) ^ (-53 : Int) with hu'
    set t : ℚ := (2 : ℚ) ^ (-1075 : Int) with ht'
    have hdx : d.toRat / 1000 ≤ x / 1000 + (x * u + t) / 1000 := by
      rw [← add_div]
      apply div_le_div_of_nonneg_right _ (by norm_num)
      linarith
    have hdx' : x / 1000 - (x * u + t) / 1000 ≤ d.toRat / 1000 := by
      rw [← sub_div]
      apply div_le_div_of_nonneg_right _ (by norm_num)
      linarith
    have hxu : 0 ≤ x * u := by positivity
    have hmul : d.toRat / 1000 * u ≤ (x / 1000 + (x * u + t) / 1000) * u := by gcongr
    have huu : x * u * u ≤ x * u * 1 := by gcongr
    have htu : t * u ≤ t * 1 := by gcongr
    have e1 : (x / 1000 + (x * u + t) / 1000) * u
        = x / 1000 * u + (x * u * u) / 1000 + (t * u) / 1000 := by ring
    have e2 : (x * u + t) / 1000 = x / 1000 * u + t / 1000 := by ring
    have h6 : (x * u * u) / 1000 ≤ (x * u * 1) / 1000 :=
      div_le_div_of_nonneg_right huu (by norm_num)
    have h7 : (t * u) / 1000 ≤ (t * 1) / 1000 :=
      div_le_div_of_nonneg_right htu (by norm_num)
    have e3 : (x * u * 1) / 1000 = x / 1000 * u := by ring
    have e4 : (t * 1) / 1000 = t / 1000 := by ring
    have hA : d.toRat / 1000 * u ≤ 2 * (x / 1000 * u) + t / 1000 := by
      rw [e1] at hmul
      linarith
    have hw : 0 ≤ x / 1000 * u := by positivity
    have ht0 : 0 ≤ t / 1000 := by positivity
    have ht1 : t / 1000 ≤ t := by
      rw [div_le_iff₀ (by norm_num)]
      linarith
    have hu0 : 0 ≤ d.toRat / 1000 * u := by positivity
    rw [e2] at hdx hdx'
    constructor
    · linarith [hcabs.1]
    · linarith [hcabs.2]

/-- The product `score * 100` of a score between 0 and 1 is a finite Number
from 0 up to `10 ^ 21`, within `2 ^ -46` of the exact product. -/
theorem score_percent_fin (score : Double) (h0 : 0 ≤ score.toRat) (h1 : score.toRat ≤ 1) :
    ∃ c : Double, JsNum.mul100 (.fin score) = .fin c ∧ 0 ≤ c.toRat ∧ c.toRat < 10 ^ 21 ∧
      |c.toRat - score.toRat * 100| ≤ (2 : ℚ) ^ (-46 : Int) := by
  have hm : 0 ≤ score.mant := (Double.toRat_nonneg_iff score).mp h0
  have hx : score.toRat * ((100 : Nat) : ℚ) / ((1 : Nat) : ℚ) = score.toRat * 100 := by
    push_cast
    ring
  have hsmall : score.toRat * ((100 : Nat) : ℚ) / ((1 : Nat) : ℚ) ≤ 2 ^ 100 := by
    rw [hx]
    have : (100 : ℚ) ≤ 2 ^ 100 := by norm_num
    linarith
  obtain ⟨c, hc, hc0, hc1⟩ := Double.scale_accurate score 100 1 hm (by norm_num) hsmall
  rw [hx] at hc1
  have hp53 : (0 : ℚ) < (2 : ℚ) ^ (-53 : Int) := Double.two_zpow_pos _
  have h53 : (2 : ℚ) ^ (-53 : Int) ≤ 1 := zpow_le_one_of_nonpos₀ (by norm_num) (by norm_num)
  have ht := Double.two_zpow_neg1075_le_one
  have hle : score.toRat * 100 * (2 : ℚ) ^ (-53 : Int) ≤ 100 * (2 : ℚ) ^ (-53 : Int) := by
    gcongr
    linarith
  have hcabs := abs_le.mp hc1
  refine ⟨c, hc, (Double.toRat_nonneg_iff c).mpr hc0, ?_, ?_⟩
  · have : (100 + 100 * 1 + 1 : ℚ) < 10 ^ 21 := by norm_num
    nlinarith
  · have e46 : (2 : ℚ) ^ (-46 : Int) = 128 * (2 : ℚ) ^ (-53 : Int) := by
      rw [show (-46 : Int) = 7 + -53 by norm_num, zpow_add₀ (by norm_num : (2 : ℚ) ≠ 0)]
      norm_num
    have hsmallt : (2 : ℚ) ^ (-1075 : Int) ≤ (2 : ℚ) ^ (-53 : Int) :=
      zpow_le_zpow_right₀ (by norm_num) (by norm_num)
    calc |c.toRat - score.toRat * 100|
        ≤ score.toRat * 100 * (2 : ℚ) ^ (-53 : Int) + (2 : ℚ) ^ (-1075 : Int) := hc1
      _ ≤ 100 * (2 : ℚ) ^ (-53 : Int) + (2 : ℚ) ^ (-53 : Int) := by linarith
      _ ≤ (2 : ℚ) ^ (-46 : Int) := by rw [e46]; linarith


/-! ## Traces of the handler -/


namespace Eff

theorem only_lift {α : Type} (P : Effect → Prop) (r : Except JsError α) :
    Only P (lift r) := by
  intro e he
  simp [lift] at he

theorem only_pure {α : Type} (P : Effect → Prop) (a : α) :
    Only P (pure a : Eff α) := by
  intro e he
  simp [pure, ret] at he

theorem only_emit (P : Effect → Prop) (e : Effect) (h : P e) : Only P (emit e) := by
  intro x hx
  simp [emit] at hx
  subst hx
  exact h

theorem only_bind {α β : Type} (P : Effect → Prop) (m : Eff α) (f : α → Eff β)
    (hm : Only P m) (hf : ∀ a, Only P (f a)) : Only P (m >>= f) := by
  intro e he
  simp only [bind, andThen] at he
  cases hr : m.result with
  | error x =>
    rw [hr] at he
    exact hm e he
  | ok a =>
    rw [hr] at he
    simp only [List.mem_append] at he
    rcases he with he | he
    · exact hm e he
    · exact hf a e he

end Eff

theorem renderItem_only (r : JsVal) : Eff.Only Effect.isRender (renderItem r) := by
  unfold renderItem
  refine Eff.only_bind _ _ _ (Eff.only_lift _ _) (fun _ => ?_)
  refine Eff.only_bind _ _ _ (Eff.only_lift _ _) (fun _ => ?_)
  refine Eff.only_bind _ _ _ (Eff.only_lift _ _) (fun _ => ?_)
  refine Eff.only_bind _ _ _ (Eff.only_lift _ _) (fun _ => ?_)
  exact Eff.only_emit _ _ trivial

theorem forEachItem_only (items : List JsVal) :
    Eff.Only Effect.isRender (forEachItem items) := by
  induction items with
  | nil => exact Eff.only_pure _ _
  | cons r rest ih =>
    unfold forEachItem
    exact Eff.only_bind _ _ _ (renderItem_only r) (fun _ => ih)

theorem renderTopResume_only (top : JsVal) :
    Eff.Only Effect.isRender (renderTopResume top) := by
  unfold renderTopResume
  refine Eff.only_bind _ _ _ (Eff.only_lift _ _) (fun _ => ?_)
  refine Eff.only_bind _ _ _ (Eff.only_lift _ _) (fun _ => ?_)
  refine Eff.only_bind _ _ _ (Eff.only_emit _ _ trivial) (fun _ => ?_)
  refine Eff.only_bind _ _ _ (Eff.only_lift _ _) (fun _ => ?_)
  refine Eff.only_bind _ _ _ (Eff.only_lift _ _) (fun _ => ?_)
  refine Eff.only_bind _ _ _ (Eff.only_emit _ _ trivial) (fun _ => ?_)
  refine Eff.only_bind _ _ _ (Eff.only_lift _ _) (fun _ => ?_)
  refine Eff.only_bind _ _ _ (Eff.only_lift _ _) (fun _ => ?_)
  refine Eff.only_bind _ _ _ (Eff.only_lift _ _) (fun _ => ?_)
  exact Eff.only_emit _ _ trivial

theorem renderAllResults_only (data : JsVal) :
    Eff.Only Effect.isRender (renderAllResults data) := by
  unfold renderAllResults
  refine Eff.only_bind _ _ _ (Eff.only_emit _ _ trivial) (fun _ => ?_)
  refine Eff.only_bind _ _ _ (Eff.only_lift _ _) (fun _ => ?_)
  refine Eff.only_bind _ _ _ (Eff.only_lift _ _) (fun _ => ?_)
  exact forEachItem_only _

theorem render_only (data : JsVal) : Eff.Only Effect.isRender (render data) := by
  unfold render
  refine Eff.only_bind _ _ _ (Eff.only_lift _ _) (fun top => ?_)
  refine Eff.only_bind _ _ _ ?_ (fun _ => renderAllResults_only data)
  split
  · exact renderTopResume_only top
  · exact Eff.only_emit _ _ trivial

/-- Rendering effects contain no request, notice, log entry or write to the
elapsed-time element. -/
theorem isRender_projections (es : List Effect) (h : ∀ e ∈ es, e.isRender) :
    requests es = [] ∧ alerts es = [] ∧ logged es = [] ∧ elapsedWrites es = [] := by
  induction es with
  | nil => simp [requests, alerts, logged, elapsedWrites]
  | cons e rest ih =>
    have hr := ih (fun x hx => h x (List.mem_cons_of_mem _ hx))
    have he := h e (List.mem_cons_self _ _)
    simp only [requests, alerts, logged, elapsedWrites] at hr ⊢
    obtain ⟨h1, h2, h3, h4⟩ := hr
    cases e with
    | setText el t => cases el <;> simp_all [Effect.isRender, List.filterMap_cons]
    | _ => simp_all [Effect.isRender, List.filterMap_cons]

/-- Rendering effects leave the elapsed-time element as it is. -/
theorem run_isRender_processingTime (es : List Effect) (h : ∀ e ∈ es, e.isRender)
    (d : Display) : (d.run es).processingTime = d.processingTime := by
  induction es generalizing d with
  | nil => rfl
  | cons e rest ih =>
    have he := h e (List.mem_cons_self _ _)
    have hr := ih (fun x hx => h x (List.mem_cons_of_mem _ hx)) (d.step e)
    simp only [Display.run, List.foldl_cons] at hr ⊢
    rw [hr]
    cases e with
    | setText el t => cases el <;> simp_all [Effect.isRender, Display.step]
    | _ => simp_all [Effect.isRender, Display.step]

theorem submit_rejected (windowSlot : Option String) (value : String)
    (files : List File) (env : Env) (e : JsError)
    (hv : jsTrim value ≠ "") (hf : files ≠ []) (hfetch : env.fetch = .error e) :
    submit windowSlot value files env
      = .fetch (requestOf windowSlot value files) :: catchBlock e := by
  have hlen : files.length ≠ 0 := by
    intro h
    exact hf (List.length_eq_zero.mp h)
  simp [submit, hv, hlen, tryBlock, bind, Eff.andThen, Eff.emit, Eff.lift, hfetch,
    requestOf]

theorem submit_unparsed (windowSlot : Option String) (value : String)
    (files : List File) (env : Env) (status : Nat) (e : JsError)
    (hv : jsTrim value ≠ "") (hf : files ≠ [])
    (hfetch : env.fetch = .ok ⟨status, .error e⟩) :
    submit windowSlot value files env
      = .fetch (requestOf windowSlot value files) :: catchBlock e := by
  have hlen : files.length ≠ 0 := by
    intro h
    exact hf (List.length_eq_zero.mp h)
  simp [submit, hv, hlen, tryBlock, bind, Eff.andThen, Eff.emit, Eff.lift, hfetch,
    requestOf]

theorem submit_parsed (windowSlot : Option String) (value : String)
    (files : List File) (env : Env) (status : Nat) (data : JsVal)
    (hv : jsTrim value ≠ "") (hf : files ≠ [])
    (hfetch : env.fetch = .ok ⟨status, .ok data⟩) :
    submit windowSlot value files env
      = .fetch (requestOf windowSlot value files)
        :: .setText .processingTime (elapsedText env.startTime env.arrivalTime)
        :: ((render data).effects ++
            match (render data).result with
            | .ok _ => []
            | .error e => catchBlock e) := by
  have hlen : files.length ≠ 0 := by
    intro h
    exact hf (List.length_eq_zero.mp h)
  simp only [submit, hv, hlen, tryBlock, bind, Eff.andThen, Eff.emit, Eff.lift, hfetch,
    requestOf, if_false]
  cases hr : (render data).result <;> simp

theorem trimChars_blank (cs : List Char) (h : ∀ c ∈ cs, isTrimChar c = true) :
    trimChars cs = [] := by
  have h1 : cs.dropWhile isTrimChar = [] := List.dropWhile_eq_nil_iff.mpr h
  simp [trimChars, h1]

theorem buildFormData_eq (jobDescription : String) (resumeFiles : List File) :
    buildFormData jobDescription resumeFiles
      = ("job_description", FormValue.text jobDescription)
        :: resumeFiles.map (fun f => ("resumes", FormValue.file f)) := by
  unfold buildFormData
  have key : ∀ (n : Nat) (init : FormData), n ≤ resumeFiles.length →
      (List.range n).foldl
        (fun fd i =>
          match resumeFiles.get? i with
          | some f => FormData.append fd "resumes" (.file f)
          | none => fd) init
        = init ++ (resumeFiles.take n).map (fun f => ("resumes", FormValue.file f)) := by
    intro n
    induction n with
    | zero => intro init _; simp
    | succ n ih =>
      intro init hn
      have hlt : n < resumeFiles.length := hn
      rw [List.range_succ, List.foldl_append, ih init (Nat.le_of_lt hlt)]
      simp only [List.foldl_cons, List.foldl_nil]
      rw [List.get?_eq_get hlt]
      simp only [FormData.append]
      rw [List.take_succ, List.getElem?_eq_getElem hlt]
      simp only [Option.toList, List.map_append, List.map_cons, List.map_nil,
        List.append_assoc, List.get_eq_getElem]
  have := key resumeFiles.length (FormData.append [] "job_description" (.text jobDescription))
    (Nat.le_refl _)
  simpa [FormData.append] using this

theorem baseUrl_eq (windowSlot : Option String) :
    RESUME_API_BASE_URL windowSlot = windowSlot.getD "" := by
  cases windowSlot with
  | none => rfl
  | some s =>
    by_cases h : s = "" <;> simp [RESUME_API_BASE_URL, h]

/-- The three ways a valid submission can go. -/
theorem submit_cases (windowSlot : Option String) (value : String)
    (files : List File) (env : Env) (hv : jsTrim value ≠ "") (hf : files ≠ []) :
    (∃ e, (env.fetch = .error e ∨ ∃ status, env.fetch = .ok ⟨status, .error e⟩) ∧
      submit windowSlot value files env
        = .fetch (requestOf windowSlot value files) :: catchBlock e) ∨
    (∃ status data, env.fetch = .ok ⟨status, .ok data⟩ ∧
      submit windowSlot value files env
        = .fetch (requestOf windowSlot value files)
          :: .setText .processingTime (elapsedText env.startTime env.arrivalTime)
          :: ((render data).effects ++
              match (render data).result with
              | .ok _ => []
              | .error e => catchBlock e)) := by
  cases hfetch : env.fetch with
  | error e =>
    exact Or.inl ⟨e, Or.inl rfl, submit_rejected _ _ _ _ e hv hf hfetch⟩
  | ok r =>
    obtain ⟨status, json⟩ := r
    cases json with
    | error e =>
      exact Or.inl ⟨e, Or.inr ⟨status, rfl⟩, submit_unparsed _ _ _ _ status e hv hf hfetch⟩
    | ok data =>
      exact Or.inr ⟨status, data, rfl, submit_parsed _ _ _ _ status data hv hf hfetch⟩

/-! ## Rendering of well-formed responses -/

theorem percentText_scored (score : Double) (h0 : 0 ≤ score.toRat) (h1 : score.toRat ≤ 1) :
    percentText (.fin score) = twoDecimals (JsNum.mul100 (.fin score)).toRat ++ "%" := by
  obtain ⟨c, hc, hc0, hc1, _⟩ := score_percent_fin score h0 h1
  simp only [percentText, hc, JsNum.toFixed2, JsNum.toRat]
  rw [Double.toFixed2_eq_twoDecimals c hc0 hc1]

theorem percent_accurate (score : Double) (h0 : 0 ≤ score.toRat) (h1 : score.toRat ≤ 1) :
    |(JsNum.mul100 (.fin score)).toRat - score.toRat * 100| ≤ (2 : ℚ) ^ (-46 : Int) := by
  obtain ⟨c, hc, _, _, hacc⟩ := score_percent_fin score h0 h1
  rw [hc]
  exact hacc

theorem scored_of_mem (items : List JsVal) (results : List (String × Double))
    (h : List.Forall₂ (fun v r => IsScoredResult v r.1 r.2) items results) :
    ∀ r ∈ results, ∃ v, IsScoredResult v r.1 r.2 := by
  induction h with
  | nil => intro r hr; simp at hr
  | cons hhead _ ih =>
    intro r hr
    rcases List.mem_cons.mp hr with h | h
    · subst h
      exact ⟨_, hhead⟩
    · exact ih r h

theorem elapsedText_eq (startTime arrivalTime : Timestamp)
    (hmono : startTime.ms.toRat ≤ arrivalTime.ms.toRat) :
    elapsedText startTime arrivalTime
      = "Processed in "
        ++ twoDecimals (JsNum.toRat ((arrivalTime.ms.sub startTime.ms).div1000))
        ++ " seconds" := by
  obtain ⟨c, hc, hc0, hc1, _⟩ := elapsed_seconds_fin startTime arrivalTime hmono
  simp only [elapsedText, hc, JsNum.toFixed2, JsNum.toRat]
  rw [Double.toFixed2_eq_twoDecimals c hc0 hc1]

theorem Eff.lift_ok_bind {α β : Type} (a : α) (f : α → Eff β) :
    (Eff.lift (.ok a) >>= f) = f a := by
  simp [bind, Eff.andThen, Eff.lift]

theorem Eff.emit_bind {β : Type} (e : Effect) (f : Unit → Eff β) :
    (Eff.emit e >>= f) = ⟨e :: (f ()).effects, (f ()).result⟩ := by
  simp [bind, Eff.andThen, Eff.emit]

theorem Eff.mk_bind {β : Type} (es : List Effect) (f : Unit → Eff β) :
    ((⟨es, .ok ()⟩ : Eff Unit) >>= f) = ⟨es ++ (f ()).effects, (f ()).result⟩ := by
  simp [bind, Eff.andThen]

theorem JsVal.getProp_obj (props : List (String × JsVal)) (key : String) :
    (JsVal.obj props).getProp key = .ok ((props.lookup key).getD .undefined) := rfl

theorem scored_truthy (v : JsVal) (filename : String) (score : Double)
    (h : IsScoredResult v filename score) : v.truthy = true := by
  obtain ⟨h1, _⟩ := h
  cases v <;> simp [JsVal.getProp] at h1
  rfl

theorem renderItem_scored (r : JsVal) (filename : String) (score : Double)
    (h : IsScoredResult r filename score) :
    renderItem r = ⟨[.appendAllResults (entryText (filename, score))], .ok ()⟩ := by
  obtain ⟨h1, h2, h3, h4⟩ := h
  simp only [renderItem, h1, h2, Eff.lift_ok_bind, JsVal.toStr, JsVal.toNumber,
    percentText_scored score h3 h4, Eff.emit, entryText, String.append_assoc]

theorem forEachItem_scored (items : List JsVal) (results : List (String × Double))
    (h : List.Forall₂ (fun v r => IsScoredResult v r.1 r.2) items results) :
    forEachItem items = ⟨(results.map entryText).map Effect.appendAllResults, .ok ()⟩ := by
  induction h with
  | nil => rfl
  | cons hr _ ih =>
    simp only [forEachItem, renderItem_scored _ _ _ hr, ih, Eff.mk_bind, List.map_cons,
      List.singleton_append]

theorem run_cons (d : Display) (e : Effect) (es : List Effect) :
    d.run (e :: es) = (d.step e).run es := rfl

theorem run_append (d : Display) (a b : List Effect) :
    d.run (a ++ b) = (d.run a).run b := by
  simp [Display.run, List.foldl_append]

theorem run_appends (items : List String) (d : Display) :
    d.run (items.map Effect.appendAllResults)
      = { d with allResults := d.allResults ++ items } := by
  induction items generalizing d with
  | nil => simp [Display.run]
  | cons x rest ih =>
    simp only [Display.run, List.map_cons, List.foldl_cons] at ih ⊢
    rw [ih]
    simp [Display.step]

theorem render_wellformed (data : JsVal) (top : Option (String × Double × String))
    (results : List (String × Double)) (h : IsScoringResponse data top results) :
    render data = ⟨renderingOf top results, .ok ()⟩ := by
  obtain ⟨⟨items, hall, hitems⟩, htop⟩ := h
  cases top with
  | none =>
    simp only at htop
    have key : ∀ v : JsVal, data.getProp "top_resume" = .ok v → v.truthy = false →
        render data = ⟨renderingOf none results, .ok ()⟩ := by
      intro v hv hfalsy
      simp only [render, renderAllResults, hv, hfalsy, hall, Eff.lift_ok_bind, Eff.emit_bind,
        JsVal.forEachItems, forEachItem_scored items results hitems, Eff.emit, Eff.mk_bind,
        renderingOf]
      simp [bind, Eff.andThen]
    rcases htop with h | h
    · exact key _ h rfl
    · exact key _ h rfl
  | some t =>
    obtain ⟨v, detailProps, hv, hscored, hdetails, hfound⟩ := htop
    have ht := scored_truthy v t.1 t.2.1 hscored
    obtain ⟨h1, h2, h3, h4⟩ := hscored
    simp only [render, renderTopResume, renderAllResults, hv, ht, h1, h2, hdetails,
      JsVal.getProp_obj, hfound, Option.getD_some, hall, Eff.lift_ok_bind, Eff.emit_bind,
      JsVal.toInnerText, JsVal.toStr, JsVal.toNumber, JsVal.forEachItems,
      forEachItem_scored items results hitems, percentText_scored t.2.1 h3 h4, if_true,
      Eff.emit, Eff.mk_bind, String.append_assoc, renderingOf]
    simp

theorem run_renderingOf (d : Display) (top : Option (String × Double × String))
    (results : List (String × Double)) :
    d.run (renderingOf top results) = showing d d.processingTime top results := by
  cases top with
  | none =>
    simp only [renderingOf, showing, List.singleton_append, run_cons, run_appends]
    rfl
  | some t =>
    simp only [renderingOf, showing, List.cons_append, List.nil_append, run_cons, run_appends]
    rfl

/-- The trace and the display of a valid submission answered with a
well-formed scoring response, whatever the status. -/
theorem submit_wellformed (windowSlot : Option String) (value : String)
    (files : List File) (env : Env) (prior : Display) (status : Nat) (data : JsVal)
    (top : Option (String × Double × String)) (results : List (String × Double))
    (hv : jsTrim value ≠ "") (hf : files ≠ [])
    (hfetch : env.fetch = .ok ⟨status, .ok data⟩)
    (h : IsScoringResponse data top results) :
    prior.run (submit windowSlot value files env)
      = showing prior (elapsedText env.startTime env.arrivalTime) top results ∧
    alerts (submit windowSlot value files env) = [] ∧
    logged (submit windowSlot value files env) = [] := by
  have hs := submit_parsed windowSlot value files env status data hv hf hfetch
  rw [render_wellformed data top results h] at hs
  simp only [List.append_nil] at hs
  rw [hs]
  have hproj := isRender_projections (renderingOf top results)
    (by
      have := render_only data
      rw [render_wellformed data top results h] at this
      exact this)
  refine ⟨?_, ?_, ?_⟩
  · rw [run_cons, run_cons, run_renderingOf]
    cases top <;> rfl
  · have := hproj.2.1
    simp only [alerts, List.filterMap_cons] at this ⊢
    exact this
  · have := hproj.2.2.1
    simp only [logged, List.filterMap_cons] at this ⊢
    exact this

/-! ## Validation, request and rejected calls -/

/-- C1. When the job description is empty or made of whitespace only, whatever
the file selection, the outcome of the request and the prior display,
`submit` dispatches no request, shows exactly one notice, the one asking for a
job description, and leaves every display region as it was. -/
theorem blank_description_is_refused (windowSlot : Option String) (value : String)
    (files : List File) (env : Env) (prior : Display)
    (hblank : ∀ c ∈ value.data, isTrimChar c = true) :
    requests (submit windowSlot value files env) = [] ∧
    alerts (submit windowSlot value files env) = ["Please enter job description."] ∧
    prior.run (submit windowSlot value files env) = prior := by
  have ht : jsTrim value = "" := by
    simp only [jsTrim, trimChars_blank _ hblank]
  have hs : submit windowSlot value files env = [.alert "Please enter job description."] := by
    simp [submit, ht]
  rw [hs]
  exact ⟨rfl, rfl, rfl⟩

theorem blank_description_is_refused_witness :
    (∀ c ∈ " \t\n ".data, isTrimChar c = true) ∧
    requests (submit none " \t\n " [⟨"resume1.pdf", [37, 80]⟩]
      offline) = [] ∧
    alerts (submit none " \t\n " [⟨"resume1.pdf", [37, 80]⟩]
      offline) = ["Please enter job description."] ∧
    Display.run ⟨"t", "n", "s", "m", ["old"]⟩
      (submit none " \t\n " [⟨"resume1.pdf", [37, 80]⟩]
        offline) = ⟨"t", "n", "s", "m", ["old"]⟩ :=
  ⟨by decide, blank_description_is_refused none " \t\n " [⟨"resume1.pdf", [37, 80]⟩]
    offline ⟨"t", "n", "s", "m", ["old"]⟩ (by decide)⟩

/-- C2. When the job description is non-empty after trimming and no file is
selected, whatever the outcome of the request and the prior display, `submit`
dispatches no request, shows exactly one notice, the one asking for at least
one file, and leaves every display region as it was. -/
theorem empty_selection_is_refused (windowSlot : Option String) (value : String)
    (env : Env) (prior : Display) (hv : jsTrim value ≠ "") :
    requests (submit windowSlot value [] env) = [] ∧
    alerts (submit windowSlot value [] env)
      = ["Please upload at least one resume file."] ∧
    prior.run (submit windowSlot value [] env) = prior := by
  have hs : submit windowSlot value [] env
      = [.alert "Please upload at least one resume file."] := by
    simp [submit, hv]
  rw [hs]
  exact ⟨rfl, rfl, rfl⟩

theorem empty_selection_is_refused_witness :
    jsTrim " backend engineer " ≠ "" ∧
    requests (submit none " backend engineer " []
      offline) = [] ∧
    alerts (submit none " backend engineer " []
      offline)
      = ["Please upload at least one resume file."] ∧
    Display.run ⟨"t", "n", "s", "m", ["old"]⟩
      (submit none " backend engineer " []
        offline) = ⟨"t", "n", "s", "m", ["old"]⟩ :=
  ⟨by decide, empty_selection_is_refused none " backend engineer "
    offline ⟨"t", "n", "s", "m", ["old"]⟩ (by decide)⟩

/-- C3. For a job description that is non-empty after trimming and a selection
of `N ≥ 1` files, whatever the outcome of the request, `submit` dispatches
exactly one request: a POST to the configured base URL (the empty string when
none is configured) followed by `/upload`, whose body is the field
`job_description` holding the trimmed description, followed by one `resumes`
field per selected file in selection order, `N + 1` fields in all. -/
theorem one_request_with_payload (windowSlot : Option String) (value : String)
    (files : List File) (env : Env) (hv : jsTrim value ≠ "") (hf : files ≠ []) :
    requests (submit windowSlot value files env)
      = [⟨"POST", windowSlot.getD "" ++ "/upload",
          ("job_description", FormValue.text (jsTrim value))
            :: files.map (fun f => ("resumes", FormValue.file f))⟩] ∧
    (("job_description", FormValue.text (jsTrim value))
        :: files.map (fun f => ("resumes", FormValue.file f))).length
      = files.length + 1 := by
  refine ⟨?_, by simp⟩
  have hreq : requestOf windowSlot value files
      = ⟨"POST", windowSlot.getD "" ++ "/upload",
          ("job_description", FormValue.text (jsTrim value))
            :: files.map (fun f => ("resumes", FormValue.file f))⟩ := by
    simp only [requestOf, buildFormData_eq, baseUrl_eq]
  rcases submit_cases windowSlot value files env hv hf with
    ⟨e, _, hs⟩ | ⟨status, data, _, hs⟩
  · rw [hs, hreq]
    rfl
  · rw [hs, hreq]
    have hr := (isRender_projections _ (render_only data)).1
    cases hres : (render data).result with
    | ok u =>
      simp only [requests, List.filterMap_cons, List.append_nil] at hr ⊢
      rw [hr]
    | error e =>
      simp only [requests, List.filterMap_cons, List.filterMap_append, catchBlock,
        List.filterMap_nil, List.append_nil] at hr ⊢
      rw [hr]

theorem one_request_with_payload_witness :
    jsTrim " backend engineer " ≠ "" ∧
    ([⟨"resume1.pdf", [37, 80]⟩, ⟨"resume2.pdf", [68]⟩] : List File) ≠ [] ∧
    requests (submit (some "http://localhost:5000") " backend engineer "
        [⟨"resume1.pdf", [37, 80]⟩, ⟨"resume2.pdf", [68]⟩]
        offline)
      = [⟨"POST", "http://localhost:5000/upload",
          [("job_description", .text "backend engineer"),
           ("resumes", .file ⟨"resume1.pdf", [37, 80]⟩),
           ("resumes", .file ⟨"resume2.pdf", [68]⟩)]⟩] :=
  ⟨by decide, by decide,
   (one_request_with_payload (some "http://localhost:5000") " backend engineer "
      [⟨"resume1.pdf", [37, 80]⟩, ⟨"resume2.pdf", [68]⟩]
      offline (by decide) (by decide)).1⟩

/-- C6. For a valid input and any prior display, when the network call is
rejected `submit` shows exactly one notice, the connection-error notice, logs
the rejection reason, and leaves every display region as it was. -/
theorem rejected_call_keeps_display (windowSlot : Option String) (value : String)
    (files : List File) (env : Env) (prior : Display) (e : JsError)
    (hv : jsTrim value ≠ "") (hf : files ≠ []) (hfetch : env.fetch = .error e) :
    alerts (submit windowSlot value files env)
      = ["Error connecting to backend. Make sure Flask server is running."] ∧
    logged (submit windowSlot value files env) = [e] ∧
    prior.run (submit windowSlot value files env) = prior := by
  rw [submit_rejected windowSlot value files env e hv hf hfetch]
  exact ⟨rfl, rfl, rfl⟩

theorem rejected_call_keeps_display_witness :
    jsTrim " backend engineer " ≠ "" ∧
    alerts (submit none " backend engineer " [⟨"resume1.pdf", [37, 80]⟩]
        offline)
      = ["Error connecting to backend. Make sure Flask server is running."] ∧
    logged (submit none " backend engineer " [⟨"resume1.pdf", [37, 80]⟩]
        offline) = [.rejection "offline"] ∧
    Display.run ⟨"t", "n", "s", "m", ["old"]⟩
      (submit none " backend engineer " [⟨"resume1.pdf", [37, 80]⟩]
        offline) = ⟨"t", "n", "s", "m", ["old"]⟩ :=
  ⟨by decide, rejected_call_keeps_display none " backend engineer "
    [⟨"resume1.pdf", [37, 80]⟩] offline
    ⟨"t", "n", "s", "m", ["old"]⟩ (.rejection "offline") (by decide) (by decide) rfl⟩


/-! ## Rendering, failures and the elapsed time -/

/-- C4, as the code has it. For a valid input and any prior display, when the
response body is well formed with a top result (a text `filename`, a `score`
between 0 and 1, a `details` object with a text `matches`, every entry of
`all_results` well formed), then after `submit` the top-result region shows
the file name, the label `Score: ` with the binary64 product `score * 100` to
two decimal places followed by `%`, and the label `Matched Keywords: ` with
the matches text; the list is exactly the entries `<filename> — <binary64
product score * 100 to two decimals>%` of `all_results` in the order received,
as many as there are results, the previous entries being gone; no notice is
shown; and each binary64 product lies within `2 ^ -46` of the exact product. -/
theorem top_result_and_list_rendered (windowSlot : Option String) (value : String)
    (files : List File) (env : Env) (prior : Display) (status : Nat) (data : JsVal)
    (name keywords : String) (score : Double) (results : List (String × Double))
    (hv : jsTrim value ≠ "") (hf : files ≠ [])
    (hfetch : env.fetch = .ok ⟨status, .ok data⟩)
    (hshape : IsScoringResponse data (some (name, score, keywords)) results) :
    (prior.run (submit windowSlot value files env)).topResumeName = name ∧
    (prior.run (submit windowSlot value files env)).topResumeScore
      = "Score: " ++ twoDecimals (JsNum.mul100 (.fin score)).toRat ++ "%" ∧
    (prior.run (submit windowSlot value files env)).topResumeMatches
      = "Matched Keywords: " ++ keywords ∧
    (prior.run (submit windowSlot value files env)).allResults
      = results.map (fun r =>
          r.1 ++ " — " ++ twoDecimals (JsNum.mul100 (.fin r.2)).toRat ++ "%") ∧
    (∀ items, data.getProp "all_results" = .ok (.arr items) →
      (prior.run (submit windowSlot value files env)).allResults.length = items.length) ∧
    alerts (submit windowSlot value files env) = [] ∧
    |(JsNum.mul100 (.fin score)).toRat - score.toRat * 100| ≤ (2 : ℚ) ^ (-46 : Int) ∧
    (∀ r ∈ results,
      |(JsNum.mul100 (.fin r.2)).toRat - r.2.toRat * 100| ≤ (2 : ℚ) ^ (-46 : Int)) := by
  obtain ⟨hd, ha, _⟩ := submit_wellformed windowSlot value files env prior status data
    (some (name, score, keywords)) results hv hf hfetch hshape
  obtain ⟨⟨items', hall, hforall⟩, v, detailProps, _, hscored, _, _⟩ := hshape
  rw [hd]
  refine ⟨rfl, rfl, rfl, rfl, ?_, ha, ?_, ?_⟩
  · intro items hitems
    rw [hall] at hitems
    injection hitems with h1
    injection h1 with h2
    subst h2
    simp [showing, hforall.length_eq]
  · exact percent_accurate score hscored.2.2.1 hscored.2.2.2
  · intro r hr
    obtain ⟨w, hw⟩ := scored_of_mem items' results hforall r hr
    exact percent_accurate r.2 hw.2.2.1 hw.2.2.2

theorem exampleBody_shape :
    IsScoringResponse exampleBody (some ("resume1.pdf", ⟨7866887829090782, -53⟩, "python, go"))
      [("resume1.pdf", ⟨7866887829090782, -53⟩)] := by
  have h0 : (0 : ℚ) ≤ (⟨7866887829090782, -53⟩ : Double).toRat := by
    norm_num [Double.toRat]
  have h1 : (⟨7866887829090782, -53⟩ : Double).toRat ≤ 1 := by
    norm_num [Double.toRat]
  refine ⟨⟨_, rfl, List.Forall₂.cons ⟨rfl, rfl, h0, h1⟩ List.Forall₂.nil⟩, ?_⟩
  exact ⟨_, [("matches", .str "python, go")], rfl, ⟨rfl, rfl, h0, h1⟩, rfl, rfl⟩

theorem top_result_and_list_rendered_witness :
    jsTrim "backend engineer" ≠ "" ∧
    literal 8734 (-4) = .num (.fin ⟨7866887829090782, -53⟩) ∧
    (earlierDisplay.run
        (submit none "backend engineer" exampleFiles
          (answered 200 (.ok exampleBody)))).topResumeScore
      = "Score: "
        ++ twoDecimals (JsNum.mul100 (.fin ⟨7866887829090782, -53⟩)).toRat ++ "%" ∧
    earlierDisplay.run
        (submit none "backend engineer" exampleFiles (answered 200 (.ok exampleBody)))
      = ⟨"Processed in 1.23 seconds", "resume1.pdf", "Score: 87.34%",
          "Matched Keywords: python, go", ["resume1.pdf — 87.34%"]⟩ :=
  ⟨by decide, rfl,
   (top_result_and_list_rendered none "backend engineer" exampleFiles
      (answered 200 (.ok exampleBody)) earlierDisplay 200 exampleBody "resume1.pdf"
      "python, go" ⟨7866887829090782, -53⟩ [("resume1.pdf", ⟨7866887829090782, -53⟩)]
      (by decide) (by decide) rfl exampleBody_shape).2.1,
   by decide⟩

theorem twoDecimals_of_cents (x : ℚ) (n : Nat) (h : x * 100 + 1 / 2 = (n : ℚ)) :
    twoDecimals x = String.mk (Nat.toDigits 10 (n / 100) ++
      ['.', Nat.digitChar (n / 10 % 10), Nat.digitChar (n % 10)]) := by
  simp only [twoDecimals, h, Nat.floor_natCast]

/-- C4 fails as stated: for the score `0.00015` the exact decimal product
`0.015` rounds to `0.02`, while the code, multiplying in binary64, shows
`0.01%` in the top result and in the list. -/
theorem exact_decimal_percentage_is_missed :
    (earlierDisplay.run
        (submit none "backend engineer" exampleFiles
          (answered 200 (.ok tieBody)))).topResumeScore = "Score: 0.01%" ∧
    (earlierDisplay.run
        (submit none "backend engineer" exampleFiles
          (answered 200 (.ok tieBody)))).allResults = ["resume3.pdf — 0.01%"] ∧
    twoDecimals ((15 : ℚ) / 100000 * 100) = "0.02" := by
  refine ⟨by decide, by decide, ?_⟩
  rw [twoDecimals_of_cents ((15 : ℚ) / 100000 * 100) 2 (by norm_num)]
  decide

/-- C5. For a valid input and any prior display, when the response body omits
`top_resume` or has it `null` and `all_results` is the empty list, then after
`submit` the top-result name reads `No resumes found`, the list is empty, and
neither a notice is shown nor an error logged. -/
theorem empty_result_is_not_an_error (windowSlot : Option String) (value : String)
    (files : List File) (env : Env) (prior : Display) (status : Nat)
    (props : List (String × JsVal))
    (hv : jsTrim value ≠ "") (hf : files ≠ [])
    (hfetch : env.fetch = .ok ⟨status, .ok (.obj props)⟩)
    (htop : props.lookup "top_resume" = none ∨ props.lookup "top_resume" = some .null)
    (hall : props.lookup "all_results" = some (.arr [])) :
    (prior.run (submit windowSlot value files env)).topResumeName = "No resumes found" ∧
    (prior.run (submit windowSlot value files env)).allResults = [] ∧
    alerts (submit windowSlot value files env) = [] ∧
    logged (submit windowSlot value files env) = [] := by
  have hw : IsScoringResponse (.obj props) none [] := by
    refine ⟨⟨[], ?_, List.Forall₂.nil⟩, ?_⟩
    · simp [JsVal.getProp, hall]
    · rcases htop with h | h
      · exact Or.inl (by simp [JsVal.getProp, h])
      · exact Or.inr (by simp [JsVal.getProp, h])
  obtain ⟨hd, ha, hl⟩ := submit_wellformed windowSlot value files env prior status
    (.obj props) none [] hv hf hfetch hw
  rw [hd]
  exact ⟨rfl, rfl, ha, hl⟩

theorem empty_result_is_not_an_error_witness :
    jsTrim "backend engineer" ≠ "" ∧
    (earlierDisplay.run (submit none "backend engineer" exampleFiles
        (answered 200 (.ok emptyBody)))).topResumeName = "No resumes found" ∧
    (earlierDisplay.run (submit none "backend engineer" exampleFiles
        (answered 200 (.ok emptyBody)))).allResults = [] ∧
    alerts (submit none "backend engineer" exampleFiles (answered 200 (.ok emptyBody))) = [] ∧
    logged (submit none "backend engineer" exampleFiles (answered 200 (.ok emptyBody))) = [] :=
  ⟨by decide, empty_result_is_not_an_error none "backend engineer" exampleFiles
    (answered 200 (.ok emptyBody)) earlierDisplay 200 [("all_results", .arr [])]
    (by decide) (by decide) rfl (Or.inl rfl) rfl⟩

theorem elapsedWrites_parsed (windowSlot : Option String) (value : String)
    (files : List File) (env : Env) (status : Nat) (data : JsVal)
    (hv : jsTrim value ≠ "") (hf : files ≠ [])
    (hfetch : env.fetch = .ok ⟨status, .ok data⟩) :
    elapsedWrites (submit windowSlot value files env)
      = [elapsedText env.startTime env.arrivalTime] := by
  rw [submit_parsed windowSlot value files env status data hv hf hfetch]
  have hr := (isRender_projections _ (render_only data)).2.2.2
  cases hres : (render data).result with
  | ok u =>
    simp only [elapsedWrites, List.filterMap_cons, List.append_nil] at hr ⊢
    rw [hr]
  | error e =>
    simp only [elapsedWrites, List.filterMap_cons, List.filterMap_append, catchBlock,
      List.filterMap_nil, List.append_nil] at hr ⊢
    rw [hr]

theorem processingTime_parsed (windowSlot : Option String) (value : String)
    (files : List File) (env : Env) (prior : Display) (status : Nat) (data : JsVal)
    (hv : jsTrim value ≠ "") (hf : files ≠ [])
    (hfetch : env.fetch = .ok ⟨status, .ok data⟩) :
    (prior.run (submit windowSlot value files env)).processingTime
      = elapsedText env.startTime env.arrivalTime := by
  rw [submit_parsed windowSlot value files env status data hv hf hfetch, run_cons, run_cons,
    run_append]
  have hr := run_isRender_processingTime _ (render_only data)
    ((prior.step (.fetch (requestOf windowSlot value files))).step
      (.setText .processingTime (elapsedText env.startTime env.arrivalTime)))
  cases hres : (render data).result with
  | ok u => exact hr
  | error e => exact hr


/-- C7, as the code has it. For a valid input and any prior display: when the
network call is rejected or the received body is unparseable, `submit` shows
the connection-error notice once, logs the reason and leaves every display
region as it was; when the body parses and rendering it throws, the notice is
shown once and the error logged, but the elapsed-time region already holds the
new elapsed time and the display is the one reached by the writes made before
the failing read; when the body parses and rendering returns, no notice is
shown. -/
theorem failure_is_atomic_until_parsed (windowSlot : Option String) (value : String)
    (files : List File) (env : Env) (prior : Display)
    (hv : jsTrim value ≠ "") (hf : files ≠ []) :
    (∀ e, env.fetch = .error e →
      alerts (submit windowSlot value files env)
        = ["Error connecting to backend. Make sure Flask server is running."] ∧
      logged (submit windowSlot value files env) = [e] ∧
      prior.run (submit windowSlot value files env) = prior) ∧
    (∀ status e, env.fetch = .ok ⟨status, .error e⟩ →
      alerts (submit windowSlot value files env)
        = ["Error connecting to backend. Make sure Flask server is running."] ∧
      logged (submit windowSlot value files env) = [e] ∧
      prior.run (submit windowSlot value files env) = prior) ∧
    (∀ status data e, env.fetch = .ok ⟨status, .ok data⟩ →
      (render data).result = .error e →
      alerts (submit windowSlot value files env)
        = ["Error connecting to backend. Make sure Flask server is running."] ∧
      logged (submit windowSlot value files env) = [e] ∧
      (prior.run (submit windowSlot value files env)).processingTime
        = elapsedText env.startTime env.arrivalTime ∧
      prior.run (submit windowSlot value files env)
        = Display.run
            { prior with processingTime := elapsedText env.startTime env.arrivalTime }
            (render data).effects) ∧
    (∀ status data, env.fetch = .ok ⟨status, .ok data⟩ →
      (render data).result = .ok () →
      alerts (submit windowSlot value files env) = [] ∧
      logged (submit windowSlot value files env) = []) := by
  refine ⟨?_, ?_, ?_, ?_⟩
  · intro e hfetch
    rw [submit_rejected windowSlot value files env e hv hf hfetch]
    exact ⟨rfl, rfl, rfl⟩
  · intro status e hfetch
    rw [submit_unparsed windowSlot value files env status e hv hf hfetch]
    exact ⟨rfl, rfl, rfl⟩
  · intro status data e hfetch hthrow
    have hpt := processingTime_parsed windowSlot value files env prior status data hv hf hfetch
    have hs := submit_parsed windowSlot value files env status data hv hf hfetch
    rw [hthrow] at hs
    have hproj := isRender_projections _ (render_only data)
    refine ⟨?_, ?_, hpt, ?_⟩
    · rw [hs]
      have := hproj.2.1
      simp only [alerts, List.filterMap_cons, List.filterMap_append, catchBlock,
        List.filterMap_nil] at this ⊢
      rw [this]
      rfl
    · rw [hs]
      have := hproj.2.2.1
      simp only [logged, List.filterMap_cons, List.filterMap_append, catchBlock,
        List.filterMap_nil] at this ⊢
      rw [this]
      rfl
    · rw [hs, run_cons, run_cons, run_append]
      rfl
  · intro status data hfetch hok
    have hs := submit_parsed windowSlot value files env status data hv hf hfetch
    rw [hok] at hs
    have hproj := isRender_projections _ (render_only data)
    rw [hs]
    constructor
    · have := hproj.2.1
      simp only [alerts, List.filterMap_cons, List.append_nil] at this ⊢
      exact this
    · have := hproj.2.2.1
      simp only [logged, List.filterMap_cons, List.append_nil] at this ⊢
      exact this

theorem failure_is_atomic_until_parsed_witness :
    jsTrim "backend engineer" ≠ "" ∧
    (render bodyWithNumberEntry).result = .ok () ∧
    alerts (submit none "backend engineer" exampleFiles
      (answered 200 (.ok bodyWithNumberEntry))) = [] ∧
    (earlierDisplay.run (submit none "backend engineer" exampleFiles
      (answered 200 (.ok bodyWithNumberEntry)))).allResults = ["undefined — NaN%"] ∧
    (render bodyWithoutList).result = .error .typeError ∧
    alerts (submit none "backend engineer" exampleFiles (answered 200 (.ok bodyWithoutList)))
      = ["Error connecting to backend. Make sure Flask server is running."] ∧
    logged (submit none "backend engineer" exampleFiles (answered 200 (.ok bodyWithoutList)))
      = [.typeError] ∧
    (earlierDisplay.run (submit none "backend engineer" exampleFiles
      (answered 200 (.ok bodyWithoutList)))).processingTime = "Processed in 1.23 seconds" :=
  have h := (failure_is_atomic_until_parsed none "backend engineer" exampleFiles
      (answered 200 (.ok bodyWithoutList)) earlierDisplay
      (by decide) (by decide)).2.2.1 200 bodyWithoutList .typeError rfl rfl
  ⟨by decide, rfl,
   ((failure_is_atomic_until_parsed none "backend engineer" exampleFiles
      (answered 200 (.ok bodyWithNumberEntry)) earlierDisplay
      (by decide) (by decide)).2.2.2 200 bodyWithNumberEntry rfl rfl).1,
   by decide, rfl, h.1, h.2.1, h.2.2.1.trans (by decide)⟩

/-- C7 fails as stated: a body that parses but lacks `all_results` ends in the
error notice after the elapsed time and the top result have been rewritten and
the list has been emptied. -/
theorem malformed_body_is_half_rendered :
    alerts (submit none "backend engineer" exampleFiles (answered 200 (.ok bodyWithoutList)))
      = ["Error connecting to backend. Make sure Flask server is running."] ∧
    earlierDisplay.run
        (submit none "backend engineer" exampleFiles (answered 200 (.ok bodyWithoutList)))
      = ⟨"Processed in 1.23 seconds", "resume2.pdf", "Score: 50.00%",
          "Matched Keywords: sql", []⟩ ∧
    earlierDisplay.run
        (submit none "backend engineer" exampleFiles (answered 200 (.ok bodyWithoutList)))
      ≠ earlierDisplay := by
  decide


/-- C8, as the code has it. The handler never reads the HTTP status. For a
valid input and a response of any status, 2xx or not: an unparseable body
takes the error path, with the notice shown once, the reason logged and the
display left as it was; a body that parses and on which rendering throws takes
the error path too, with the notice and the log; a body that is a well-formed
scoring response is rendered as a result, with no notice and nothing logged;
and the trace is the one of any other status with the same body. -/
theorem status_is_not_consulted (windowSlot : Option String) (value : String)
    (files : List File) (env : Env) (prior : Display) (status : Nat)
    (json : Except JsError JsVal) (hv : jsTrim value ≠ "") (hf : files ≠ [])
    (hfetch : env.fetch = .ok ⟨status, json⟩) :
    (∀ e, json = .error e →
      alerts (submit windowSlot value files env)
        = ["Error connecting to backend. Make sure Flask server is running."] ∧
      logged (submit windowSlot value files env) = [e] ∧
      prior.run (submit windowSlot value files env) = prior) ∧
    (∀ data e, json = .ok data → (render data).result = .error e →
      alerts (submit windowSlot value files env)
        = ["Error connecting to backend. Make sure Flask server is running."] ∧
      logged (submit windowSlot value files env) = [e]) ∧
    (∀ data top results, json = .ok data → IsScoringResponse data top results →
      prior.run (submit windowSlot value files env)
        = showing prior (elapsedText env.startTime env.arrivalTime) top results ∧
      alerts (submit windowSlot value files env) = [] ∧
      logged (submit windowSlot value files env) = []) ∧
    (∀ other : Nat,
      submit windowSlot value files env
        = submit windowSlot value files { env with fetch := .ok ⟨other, json⟩ }) := by
  refine ⟨?_, ?_, ?_, ?_⟩
  · intro e hjson
    subst hjson
    rw [submit_unparsed windowSlot value files env status e hv hf hfetch]
    exact ⟨rfl, rfl, rfl⟩
  · intro data e hjson hthrow
    subst hjson
    have hs := submit_parsed windowSlot value files env status data hv hf hfetch
    rw [hthrow] at hs
    have hproj := isRender_projections _ (render_only data)
    rw [hs]
    constructor
    · have := hproj.2.1
      simp only [alerts, List.filterMap_cons, List.filterMap_append, catchBlock,
        List.filterMap_nil] at this ⊢
      rw [this]
      rfl
    · have := hproj.2.2.1
      simp only [logged, List.filterMap_cons, List.filterMap_append, catchBlock,
        List.filterMap_nil] at this ⊢
      rw [this]
      rfl
  · intro data top results hjson hshape
    subst hjson
    exact submit_wellformed windowSlot value files env prior status data top results
      hv hf hfetch hshape
  · intro other
    simp only [submit, tryBlock, hfetch, Eff.lift_ok_bind]

theorem status_is_not_consulted_witness :
    jsTrim "backend engineer" ≠ "" ∧
    earlierDisplay.run
        (submit none "backend engineer" exampleFiles (answered 500 (.ok exampleBody)))
      = showing earlierDisplay "Processed in 1.23 seconds"
          (some ("resume1.pdf", ⟨7866887829090782, -53⟩, "python, go"))
          [("resume1.pdf", ⟨7866887829090782, -53⟩)] ∧
    alerts (submit none "backend engineer" exampleFiles (answered 500 (.ok exampleBody)))
      = [] :=
  have h := (status_is_not_consulted none "backend engineer" exampleFiles
      (answered 500 (.ok exampleBody)) earlierDisplay 500 (.ok exampleBody)
      (by decide) (by decide) rfl).2.2.1 exampleBody _ _ rfl exampleBody_shape
  ⟨by decide, h.1.trans (by rw [show elapsedText (answered 500 (.ok exampleBody)).startTime
      (answered 500 (.ok exampleBody)).arrivalTime = "Processed in 1.23 seconds" by decide]),
    h.2.1⟩

/-- C8 fails as stated: a response with status 500 whose body is a well-formed
scoring response is rendered as a result, with no notice and nothing logged. -/
theorem server_error_with_body_is_rendered :
    alerts (submit none "backend engineer" exampleFiles (answered 500 (.ok exampleBody))) = [] ∧
    logged (submit none "backend engineer" exampleFiles (answered 500 (.ok exampleBody))) = [] ∧
    earlierDisplay.run
        (submit none "backend engineer" exampleFiles (answered 500 (.ok exampleBody)))
      = ⟨"Processed in 1.23 seconds", "resume1.pdf", "Score: 87.34%",
          "Matched Keywords: python, go", ["resume1.pdf — 87.34%"]⟩ := by
  decide

/-- C9 on the code: after a response without a top result, the score and the
matched keywords of the earlier top result are still on display next to
`No resumes found`, so two different prior displays give two different
top-result summaries for the same response. -/
theorem stale_summary_after_empty_result :
    earlierDisplay.run
        (submit none "backend engineer" exampleFiles (answered 200 (.ok emptyBody)))
      = ⟨"Processed in 1.23 seconds", "No resumes found", "Score: 12.00%",
          "Matched Keywords: rust", []⟩ ∧
    (Display.run ⟨"", "", "", "", []⟩
        (submit none "backend engineer" exampleFiles (answered 200 (.ok emptyBody))))
      = ⟨"Processed in 1.23 seconds", "No resumes found", "", "", []⟩ ∧
    (earlierDisplay.run
        (submit none "backend engineer" exampleFiles
          (answered 200 (.ok emptyBody)))).topResumeScore
      ≠ (Display.run ⟨"", "", "", "", []⟩
        (submit none "backend engineer" exampleFiles
          (answered 200 (.ok emptyBody)))).topResumeScore := by
  decide


/-- C10, as the code has it. The elapsed-time element is written only when the
input is valid and a response body has been received and parsed, hence never on
a validation failure and never on a rejected network call. With a monotonic
clock, the elapsed seconds computed in binary64 are not negative and within
the relative error `2 ^ -51` of the exact `(now - start) / 1000`, and every
text written is `Processed in `, those seconds with exactly two digits after
the point (the nearest such decimal, the larger one on a tie), and
` seconds`. -/
theorem elapsed_time_written_after_parse (windowSlot : Option String) (value : String)
    (files : List File) (env : Env) :
    (elapsedWrites (submit windowSlot value files env) ≠ [] →
      jsTrim value ≠ "" ∧ files ≠ [] ∧
      ∃ status data, env.fetch = .ok ⟨status, .ok data⟩) ∧
    (env.startTime.ms.toRat ≤ env.arrivalTime.ms.toRat →
      0 ≤ JsNum.toRat ((env.arrivalTime.ms.sub env.startTime.ms).div1000) ∧
      |JsNum.toRat ((env.arrivalTime.ms.sub env.startTime.ms).div1000)
          - (env.arrivalTime.ms.toRat - env.startTime.ms.toRat) / 1000|
        ≤ (env.arrivalTime.ms.toRat - env.startTime.ms.toRat) / 1000 * (2 : ℚ) ^ (-51 : Int)
          + (2 : ℚ) ^ (-1073 : Int) ∧
      ∀ s ∈ elapsedWrites (submit windowSlot value files env),
        s = "Processed in "
            ++ twoDecimals (JsNum.toRat ((env.arrivalTime.ms.sub env.startTime.ms).div1000))
            ++ " seconds") := by
  have hnil : ∀ t : List Effect, elapsedWrites t = [] →
      (elapsedWrites t ≠ [] →
        jsTrim value ≠ "" ∧ files ≠ [] ∧
        ∃ status data, env.fetch = .ok ⟨status, .ok data⟩) ∧
      (env.startTime.ms.toRat ≤ env.arrivalTime.ms.toRat →
        0 ≤ JsNum.toRat ((env.arrivalTime.ms.sub env.startTime.ms).div1000) ∧
        |JsNum.toRat ((env.arrivalTime.ms.sub env.startTime.ms).div1000)
            - (env.arrivalTime.ms.toRat - env.startTime.ms.toRat) / 1000|
          ≤ (env.arrivalTime.ms.toRat - env.startTime.ms.toRat) / 1000
              * (2 : ℚ) ^ (-51 : Int)
            + (2 : ℚ) ^ (-1073 : Int) ∧
        ∀ s ∈ elapsedWrites t,
          s = "Processed in "
              ++ twoDecimals
                (JsNum.toRat ((env.arrivalTime.ms.sub env.startTime.ms).div1000))
              ++ " seconds") := by
    intro t ht
    refine ⟨fun h => absurd ht h, fun hmono => ⟨?_, ?_, ?_⟩⟩
    · obtain ⟨c, hc, hc0, _⟩ := elapsed_seconds_fin env.startTime env.arrivalTime hmono
      rw [hc]
      exact hc0
    · obtain ⟨c, hc, _, _, hacc⟩ := elapsed_seconds_fin env.startTime env.arrivalTime hmono
      rw [hc]
      exact hacc
    · intro s hs
      rw [ht] at hs
      simp at hs
  by_cases hv : jsTrim value = ""
  · have hs : submit windowSlot value files env = [.alert "Please enter job description."] := by
      simp [submit, hv]
    rw [hs]
    exact hnil _ rfl
  by_cases hf : files = []
  · have hs : submit windowSlot value files env
        = [.alert "Please upload at least one resume file."] := by
      simp [submit, hv, hf]
    rw [hs]
    exact hnil _ rfl
  rcases submit_cases windowSlot value files env hv hf with
    ⟨e, _, hs⟩ | ⟨status, data, hfetch, _⟩
  · rw [hs]
    exact hnil _ rfl
  · rw [elapsedWrites_parsed windowSlot value files env status data hv hf hfetch]
    refine ⟨fun _ => ⟨hv, hf, status, data, hfetch⟩, fun hmono => ⟨?_, ?_, ?_⟩⟩
    · obtain ⟨c, hc, hc0, _⟩ := elapsed_seconds_fin env.startTime env.arrivalTime hmono
      rw [hc]
      exact hc0
    · obtain ⟨c, hc, _, _, hacc⟩ := elapsed_seconds_fin env.startTime env.arrivalTime hmono
      rw [hc]
      exact hacc
    · intro s hs
      rw [List.mem_singleton] at hs
      rw [hs]
      exact elapsedText_eq _ _ hmono

theorem elapsed_time_written_after_parse_witness :
    (⟨1000, 0⟩ : Double).toRat ≤ (⟨4469, -1⟩ : Double).toRat ∧
    elapsedWrites (submit none "backend engineer" exampleFiles (answered 200 (.ok exampleBody)))
      = ["Processed in 1.23 seconds"] ∧
    (∀ s ∈ elapsedWrites
        (submit none "backend engineer" exampleFiles (answered 200 (.ok exampleBody))),
      s = "Processed in "
          ++ twoDecimals (JsNum.toRat
              (((answered 200 (.ok exampleBody)).arrivalTime.ms.sub
                (answered 200 (.ok exampleBody)).startTime.ms).div1000))
          ++ " seconds") :=
  ⟨by norm_num [Double.toRat], by decide,
   ((elapsed_time_written_after_parse none "backend engineer" exampleFiles
      (answered 200 (.ok exampleBody))).2 (by norm_num [answered, Double.toRat])).2.2⟩

/-- C10 fails as stated: with the clock at 0 ms before dispatch and at 15 ms on
arrival, the exact quotient `0.015` rounds to `0.02`, while the code, dividing
in binary64, writes `Processed in 0.01 seconds`. -/
theorem elapsed_tie_is_rounded_down :
    (⟨0, 0⟩ : Double).toRat ≤ (⟨15, 0⟩ : Double).toRat ∧
    elapsedWrites (submit none "backend engineer" exampleFiles
        (answeredAfter15 200 (.ok exampleBody)))
      = ["Processed in 0.01 seconds"] ∧
    twoDecimals (((15 : ℚ) - 0) / 1000) = "0.02" := by
  refine ⟨by norm_num [Double.toRat], by decide, ?_⟩
  rw [twoDecimals_of_cents (((15 : ℚ) - 0) / 1000) 2 (by norm_num)]
  decide

end Portal
